import Mathlib

/-! # VoteSecure: election lifecycle and vote ledger

A shallow embedding of `src/server.js`.  The MySQL store is a record of four
row lists plus the auto-increment counters; every HTTP handler is a function
from the store (and the request's environment: the SQL `NOW()`, the JavaScript
`Date.now()`, the oracle's answer) to the new store and the response.

Timestamps (`DATETIME`, `NOW()`, `Date.now()`) are natural numbers; row ids are
natural numbers, `0` standing for the falsy values a handler tests with `!x`.
An optional field of a request body is an `Option`, `none` being JSON `null`.
Every statement runs on an auto-commit connection, as in the source: there is
no transaction, and a handler that throws keeps what it had already written.
-/

namespace VoteSecure

/-- JavaScript strings and SQL text columns, as character lists. -/
abbrev Text := List Char

/-! ## Enumerations of the schema -/

/-- Column `users.role ENUM('admin', 'voter')`. -/
inductive Role where
  | admin
  | voter
deriving DecidableEq, Repr

/-- Column `elections.status ENUM('upcoming', 'active', 'completed')`. -/
inductive Status where
  | upcoming
  | active
  | completed
deriving DecidableEq, Repr

/-- Position of a status in the order upcoming < active < completed. -/
def Status.rank : Status → Nat
  | .upcoming => 0
  | .active => 1
  | .completed => 2

/-! ## The status update rule

```
SET status = CASE
  WHEN start_date > NOW() THEN 'upcoming'
  WHEN start_date <= NOW() AND end_date > NOW() THEN 'active'
  WHEN end_date <= NOW() THEN 'completed'
  ELSE status
END
```
The same `CASE` occurs in `/api/vote`, `/api/elections` and
`/api/elections/update-status`.  SQL takes the first `WHEN` that holds.
-/

/-- The arm of the `CASE` that is taken. -/
inductive CaseArm where
  | whenUpcoming
  | whenActive
  | whenCompleted
  | elseKeep
deriving DecidableEq, Repr

/-- First `WHEN` of the `CASE` whose condition holds, `ELSE` when none does. -/
def caseArm (now start_date end_date : Nat) : CaseArm :=
  if start_date > now then .whenUpcoming
  else if start_date ≤ now ∧ end_date > now then .whenActive
  else if end_date ≤ now then .whenCompleted
  else .elseKeep

/-- Value of the `CASE` expression: the new stored status. -/
def statusCase (now start_date end_date : Nat) (status : Status) : Status :=
  match caseArm now start_date end_date with
  | .whenUpcoming => .upcoming
  | .whenActive => .active
  | .whenCompleted => .completed
  | .elseKeep => status

/-! ## Text helpers -/

/-- Characters matched by the regular expression class `\s` and stripped by
`String.prototype.trim`: the ECMAScript WhiteSpace and LineTerminator code points. -/
def jsWhitespace (c : Char) : Bool :=
  let n := c.toNat
  n == 0x09 || n == 0x0A || n == 0x0B || n == 0x0C || n == 0x0D || n == 0x20 ||
  n == 0xA0 || n == 0x1680 || (0x2000 ≤ n && n ≤ 0x200A) || n == 0x2028 ||
  n == 0x2029 || n == 0x202F || n == 0x205F || n == 0x3000 || n == 0xFEFF

/-- JavaScript `s.trim()`. -/
def trim (s : Text) : Text :=
  ((s.dropWhile jsWhitespace).reverse.dropWhile jsWhitespace).reverse

/-- JavaScript `s.replace(/[-\s]/g, "")`. -/
def stripDashSpace (s : Text) : Text :=
  s.filter fun c => !(c == '-' || jsWhitespace c)

/-- The test `!x || x.trim() === "" || x.trim() === "-" ||
x.trim().replace(/[-\s]/g, "") === ""` applied to a title or a candidate name;
`none` is a field absent from the request body. -/
def invalidRequired : Option Text → Bool
  | none => true
  | some x => x == [] || trim x == [] || trim x == ['-'] || stripDashSpace (trim x) == []

/-- The test `x && (x.trim() === "-" || x.trim().replace(/[-\s]/g, "") === "")`
applied to a description. -/
def invalidOptional : Option Text → Bool
  | none => false
  | some x => x != [] && (trim x == ['-'] || stripDashSpace (trim x) == [])

/-- Decimal digits of a number, as in a template literal or `JSON.stringify`. -/
def digits (n : Nat) : Text := Nat.toDigits 10 n

/-- JavaScript `s.length`: the number of UTF-16 code units. -/
def utf16Length (s : Text) : Nat :=
  (s.map fun c => if c.toNat < 0x10000 then 1 else 2).sum

/-- Size in bytes of a text in UTF-8, the measure of a `TEXT` column. -/
def utf8Length (s : Text) : Nat :=
  (s.map fun c =>
    if c.toNat < 0x80 then 1 else if c.toNat < 0x800 then 2
    else if c.toNat < 0x10000 then 3 else 4).sum

/-! ## Hashing

`crypto.createHash('sha256')...digest('hex')` is a parameter `sha256` of the
model; what the code decides is the text that is digested.
-/

/-- The JavaScript values of the fields handed to `generateBlockchainHash`, as
far as this model follows them: `null`, a string, a non-negative integer, and
the two non-finite numbers `Infinity` and `-Infinity` (what `JSON.parse` makes
of `1e999` and `-1e999` in a request body).  `JSON.stringify` writes a
non-negative integer below 2^53 with its decimal digits; a larger number is
written from its rounded value, from 10^21 on with an exponent, and for such a
number the text of this model is not the program's. -/
inductive Json where
  | null
  | num (n : Nat)
  | str (s : Text)
  | nonFinite (negative : Bool)
deriving DecidableEq, Repr

/-- One character inside a JSON string, as `JSON.stringify` quotes it. -/
def jsonEscapeChar (c : Char) : Text :=
  let n := c.toNat
  if n == 34 then [Char.ofNat 92, Char.ofNat 34]
  else if n == 92 then [Char.ofNat 92, Char.ofNat 92]
  else if n == 8 then [Char.ofNat 92, 'b']
  else if n == 9 then [Char.ofNat 92, 't']
  else if n == 10 then [Char.ofNat 92, 'n']
  else if n == 12 then [Char.ofNat 92, 'f']
  else if n == 13 then [Char.ofNat 92, 'r']
  else if n < 32 then
    [Char.ofNat 92, 'u', '0', '0'] ++ (if n < 16 then ['0'] else []) ++ Nat.toDigits 16 n
  else [c]

/-- Rendering of a JSON string by `JSON.stringify`: quoted and escaped. -/
def jsonQuote (s : Text) : Text :=
  [Char.ofNat 34] ++ (s.map jsonEscapeChar).flatten ++ [Char.ofNat 34]

/-- Rendering of a value by `JSON.stringify`; a non-finite number is written
`null`. -/
def Json.render : Json → Text
  | .null => "null".toList
  | .num n => digits n
  | .str s => jsonQuote s
  | .nonFinite _ => "null".toList

/-- The members of an object, comma separated. -/
def renderMembers : List (Text × Json) → Text
  | [] => []
  | [(k, v)] => jsonQuote k ++ [':'] ++ v.render
  | (k, v) :: rest => jsonQuote k ++ [':'] ++ v.render ++ [','] ++ renderMembers rest

/-- Rendering of a flat object by `JSON.stringify`, members in insertion order. -/
def stringify (data : List (Text × Json)) : Text :=
  [Char.ofNat 123] ++ renderMembers data ++ [Char.ofNat 125]

/-- Source function `generateBlockchainHash(data)`. -/
def generateBlockchainHash (sha256 : Text → Text) (data : List (Text × Json)) : Text :=
  sha256 (stringify data)

/-- Source function `generateVoteHash(voterId, candidateId, timestamp)`. -/
def generateVoteHash (sha256 : Text → Text) (voterId candidateId timestamp : Nat) : Text :=
  sha256 (digits voterId ++ ['-'] ++ digits candidateId ++ ['-'] ++ digits timestamp)

/-- A nullable text as a JSON value (`null` is rendered, not dropped). -/
def Json.ofOptText : Option Text → Json
  | none => .null
  | some t => .str t

/-! ## The store -/

/-- Row of table `users` (the password hash and the ledger address are read by
no handler modelled here and are left out). -/
structure User where
  id : Nat
  name : Text
  email : Text
  role : Role
  created_at : Nat
deriving DecidableEq, Repr

/-- Row of table `elections`. -/
structure Election where
  id : Nat
  title : Text
  description : Option Text
  start_date : Nat
  end_date : Nat
  status : Status
  blockchain_hash : Text
  created_by : Nat
  created_at : Nat
deriving DecidableEq, Repr

/-- Row of table `candidates`. -/
structure Candidate where
  id : Nat
  election_id : Nat
  name : Text
  description : Option Text
  blockchain_hash : Text
  created_at : Nat
deriving DecidableEq, Repr

/-- Row of table `votes`. -/
structure Vote where
  id : Nat
  election_id : Nat
  candidate_id : Nat
  voter_id : Nat
  blockchain_hash : Text
  vote_hash : Text
  created_at : Nat
deriving DecidableEq, Repr

/-- The database: the four tables in insertion order and their
`AUTO_INCREMENT` counters. -/
structure Store where
  users : List User
  elections : List Election
  candidates : List Candidate
  votes : List Vote
  nextUserId : Nat
  nextElectionId : Nat
  nextCandidateId : Nat
  nextVoteId : Nat
deriving DecidableEq, Repr

/-- The database after `initDatabase` on a fresh server. -/
def Store.empty : Store :=
  { users := [], elections := [], candidates := [], votes := [],
    nextUserId := 1, nextElectionId := 1, nextCandidateId := 1, nextVoteId := 1 }

/-- A statement refused by the storage engine. -/
inductive DbError where
  | dupEntry
  | foreignKey
  | dataTooLong
  | notNull
  | badEnum
deriving DecidableEq, Repr

/-! ## Requests and responses -/

/-- The claims of the verified token: `req.user.userId` and `req.user.role`. -/
structure AuthUser where
  userId : Nat
  role : Role
deriving DecidableEq, Repr

/-- What the optional ledger client did in a request: `web3` is null, the call
threw (caught by the inner `try`), or the call returned a transaction whose
`transactionHash` is `h`. -/
inductive Oracle where
  | absent
  | failed
  | tx (h : Text)
deriving DecidableEq, Repr

/-- One entry of `req.body.candidates`. -/
structure CandidateInput where
  name : Option Text
  description : Option Text
deriving DecidableEq, Repr

/-- Body of `POST /api/elections`; `none` is a `null` field.  The two dates
are the instants the `DATETIME` columns will hold. -/
structure ElectionBody where
  title : Option Text
  description : Option Text
  startDate : Option Nat
  endDate : Option Nat
  candidates : Option (List CandidateInput)
deriving DecidableEq, Repr

/-- Every response a modelled handler sends, named after its message. -/
inductive Response where
  | registered (userId : Nat)
  | allFieldsRequired
  | passwordTooShort
  | passwordNeedsSpecial
  | userExists
  | registrationFailed
  | adminRequired
  | voterRequired
  | validTitleRequired
  | validDescriptionRequired
  | requiredFieldsMissing
  | candidateNamesInvalid
  | candidateDescriptionsInvalid
  | electionCreated (electionId : Nat) (blockchainHash : Text)
  | idsRequired
  | electionNotActive
  | alreadyVoted
  | voteCast (voteHash blockchainHash : Text) (blockchainTx : Option Text)
  | electionList
  | statusUpdated
  | cannotDeleteVoter
  | voterNotFound
  | voterDeleted
  | cannotDeleteElection
  | electionNotFound
  | electionDeleted
  | internalServerError
deriving DecidableEq, Repr

/-- HTTP status code of a response (`res.status(...)`, 200 by default). -/
def Response.httpStatus : Response → Nat
  | .registered _ => 201
  | .allFieldsRequired => 400
  | .passwordTooShort => 400
  | .passwordNeedsSpecial => 400
  | .userExists => 400
  | .registrationFailed => 500
  | .adminRequired => 403
  | .voterRequired => 403
  | .validTitleRequired => 400
  | .validDescriptionRequired => 400
  | .requiredFieldsMissing => 400
  | .candidateNamesInvalid => 400
  | .candidateDescriptionsInvalid => 400
  | .electionCreated _ _ => 201
  | .idsRequired => 400
  | .electionNotActive => 400
  | .alreadyVoted => 400
  | .voteCast _ _ _ => 200
  | .electionList => 200
  | .statusUpdated => 200
  | .cannotDeleteVoter => 400
  | .voterNotFound => 404
  | .voterDeleted => 200
  | .cannotDeleteElection => 400
  | .electionNotFound => 404
  | .electionDeleted => 200
  | .internalServerError => 500

/-- The kinds of outcome of the specification's error taxonomy. -/
inductive Outcome where
  | success
  | validationError
  | forbidden
  | electionNotActive
  | invalidCandidate
  | duplicateVote
  | businessRule
  | notFound
  | storageFailure
deriving DecidableEq, Repr

/-- Kind of a response: 'Election is not active' is `ElectionNotActive`, 'You
have already voted in this election' is `DuplicateVote`, the two 'Cannot
delete ...' refusals are business-rule errors, the other 400s report bad input,
and a 500 is the opaque infrastructure failure.  No response of the code is an
`InvalidCandidate`. -/
def Response.outcome : Response → Outcome
  | .registered _ => .success
  | .allFieldsRequired => .validationError
  | .passwordTooShort => .validationError
  | .passwordNeedsSpecial => .validationError
  | .userExists => .businessRule
  | .registrationFailed => .storageFailure
  | .adminRequired => .forbidden
  | .voterRequired => .forbidden
  | .validTitleRequired => .validationError
  | .validDescriptionRequired => .validationError
  | .requiredFieldsMissing => .validationError
  | .candidateNamesInvalid => .validationError
  | .candidateDescriptionsInvalid => .validationError
  | .electionCreated _ _ => .success
  | .idsRequired => .validationError
  | .electionNotActive => .electionNotActive
  | .alreadyVoted => .duplicateVote
  | .voteCast _ _ _ => .success
  | .electionList => .success
  | .statusUpdated => .success
  | .cannotDeleteVoter => .businessRule
  | .voterNotFound => .notFound
  | .voterDeleted => .success
  | .cannotDeleteElection => .businessRule
  | .electionNotFound => .notFound
  | .electionDeleted => .success
  | .internalServerError => .storageFailure

/-! ## Status refresh -/

/-- One row under `SET status = CASE ... END`. -/
def refreshElection (now : Nat) (e : Election) : Election :=
  { e with status := statusCase now e.start_date e.end_date e.status }

/-- The update of `/api/vote`: `UPDATE elections SET status = ... WHERE id = ?`. -/
def updateStatusWhere (s : Store) (now electionId : Nat) : Store :=
  { s with elections := s.elections.map fun e =>
      if e.id = electionId then refreshElection now e else e }

/-- The update of `/api/elections` and `/api/elections/update-status`, on
every row. -/
def updateStatusAll (s : Store) (now : Nat) : Store :=
  { s with elections := s.elections.map (refreshElection now) }

/-! ## Cast vote (`POST /api/vote`) -/

/-- The statement `INSERT INTO votes (election_id, candidate_id, voter_id,
blockchain_hash, vote_hash)` under the table's constraints: `UNIQUE KEY
unique_vote (election_id, voter_id)`, the three foreign keys, and the widths
`blockchain_hash VARCHAR(66)` and `vote_hash VARCHAR(64)`.  Which violation
the engine reports first is not the handler's concern: it answers every one
of them alike. -/
def insertVote (s : Store) (now electionId candidateId voterId : Nat)
    (blockchainHash voteHash : Text) : Except DbError Store :=
  if ∃ v ∈ s.votes, v.election_id = electionId ∧ v.voter_id = voterId then
    .error .dupEntry
  else if ¬ ∃ e ∈ s.elections, e.id = electionId then .error .foreignKey
  else if ¬ ∃ c ∈ s.candidates, c.id = candidateId then .error .foreignKey
  else if ¬ ∃ u ∈ s.users, u.id = voterId then .error .foreignKey
  else if blockchainHash.length > 66 then .error .dataTooLong
  else if voteHash.length > 64 then .error .dataTooLong
  else
    .ok { s with
      votes := s.votes ++ [{ id := s.nextVoteId, election_id := electionId,
                             candidate_id := candidateId, voter_id := voterId,
                             blockchain_hash := blockchainHash, vote_hash := voteHash,
                             created_at := now }],
      nextVoteId := s.nextVoteId + 1 }

/-- The handler up to and including the duplicate pre-check: role, presence of
both ids, status refresh, active check, `SELECT id FROM votes WHERE election_id
= ? AND voter_id = ?`.  Returns the store after the refresh and the rejection,
if any. -/
def castVoteChecks (s : Store) (now : Nat) (user : AuthUser)
    (electionId candidateId : Nat) : Store × Option Response :=
  if user.role ≠ .voter then (s, some .voterRequired)
  else if electionId = 0 ∨ candidateId = 0 then (s, some .idsRequired)
  else
    let s1 := updateStatusWhere s now electionId
    match s1.elections.filter (fun e => e.id = electionId) with
    | [] => (s1, some .electionNotActive)
    | e :: _ =>
      if e.status ≠ .active then (s1, some .electionNotActive)
      else
        let existingVotes :=
          s1.votes.filter fun v => v.election_id = electionId ∧ v.voter_id = user.userId
        if existingVotes.length > 0 then (s1, some .alreadyVoted)
        else (s1, none)

/-- The value of `blockchainTxHash` after the `if (web3)` block. -/
def Oracle.txHash : Oracle → Option Text
  | .absent => none
  | .failed => none
  | .tx h => some h

/-- The expression `blockchainTxHash || generateBlockchainHash({ electionId,
candidateId, voterId, timestamp })`: an empty string is falsy too. -/
def voteBlockchainHash (sha256 : Text → Text) (oracle : Oracle)
    (electionId candidateId voterId timestamp : Nat) : Text :=
  let localHash := generateBlockchainHash sha256
    [("electionId".toList, .num electionId), ("candidateId".toList, .num candidateId),
     ("voterId".toList, .num voterId), ("timestamp".toList, .num timestamp)]
  match oracle.txHash with
  | none => localHash
  | some h => if h = [] then localHash else h

/-- The handler after the pre-check: hashes, the insert, and the `catch` that
answers every thrown error with 500 'Internal server error'. -/
def castVoteInsert (sha256 : Text → Text) (s : Store) (now : Nat) (user : AuthUser)
    (electionId candidateId : Nat) (oracle : Oracle) (timestamp : Nat) : Store × Response :=
  let voteHash := generateVoteHash sha256 user.userId candidateId timestamp
  let blockchainHash := voteBlockchainHash sha256 oracle electionId candidateId user.userId timestamp
  match insertVote s now electionId candidateId user.userId blockchainHash voteHash with
  | .error _ => (s, .internalServerError)
  | .ok s2 => (s2, .voteCast voteHash blockchainHash oracle.txHash)

/-- The handler of `POST /api/vote`, run without interleaving. -/
def castVote (sha256 : Text → Text) (s : Store) (now : Nat) (user : AuthUser)
    (electionId candidateId : Nat) (oracle : Oracle) (timestamp : Nat) : Store × Response :=
  match castVoteChecks s now user electionId candidateId with
  | (s1, some rejection) => (s1, rejection)
  | (s1, none) => castVoteInsert sha256 s1 now user electionId candidateId oracle timestamp

/-- The handler of `POST /api/vote` when other requests commit between its
pre-check and its insert: the checks read `s`, the insert meets `later s1`. -/
def castVoteInterleaved (sha256 : Text → Text) (later : Store → Store) (s : Store)
    (now : Nat) (user : AuthUser) (electionId candidateId : Nat) (oracle : Oracle)
    (timestamp : Nat) : Store × Response :=
  match castVoteChecks s now user electionId candidateId with
  | (s1, some rejection) => (s1, rejection)
  | (s1, none) =>
    castVoteInsert sha256 (later s1) now user electionId candidateId oracle timestamp

/-! ## Create election (`POST /api/elections`) -/

/-- The loop `for (const candidate of candidates)` of the validation: the
first candidate with a bad name or description ends the request. -/
def validateCandidates : List CandidateInput → Option Response
  | [] => none
  | c :: cs =>
    if invalidRequired c.name then some .candidateNamesInvalid
    else if invalidOptional c.description then some .candidateDescriptionsInvalid
    else validateCandidates cs

/-- The statement `INSERT INTO elections (title, description, start_date,
end_date, blockchain_hash, created_by)`: `title VARCHAR(255)`, `description
TEXT`, `created_by` references `users(id)`, `status` takes its default. -/
def insertElection (s : Store) (now : Nat) (title : Text) (description : Option Text)
    (startDate endDate : Nat) (blockchainHash : Text) (createdBy : Nat) :
    Except DbError (Store × Nat) :=
  if title.length > 255 then .error .dataTooLong
  else if (description.map utf8Length).getD 0 > 65535 then .error .dataTooLong
  else if ¬ ∃ u ∈ s.users, u.id = createdBy then .error .foreignKey
  else
    .ok ({ s with
      elections := s.elections ++ [{ id := s.nextElectionId, title := title,
                                     description := description, start_date := startDate,
                                     end_date := endDate, status := .upcoming,
                                     blockchain_hash := blockchainHash,
                                     created_by := createdBy, created_at := now }],
      nextElectionId := s.nextElectionId + 1 }, s.nextElectionId)

/-- The statement `INSERT INTO candidates (election_id, name, description,
blockchain_hash)`: `name VARCHAR(255) NOT NULL`, `election_id` references
`elections(id)`. -/
def insertCandidate (s : Store) (now electionId : Nat) (name : Option Text)
    (description : Option Text) (blockchainHash : Text) : Except DbError Store :=
  match name with
  | none => .error .notNull
  | some name =>
    if name.length > 255 then .error .dataTooLong
    else if (description.map utf8Length).getD 0 > 65535 then .error .dataTooLong
    else if ¬ ∃ e ∈ s.elections, e.id = electionId then .error .foreignKey
    else
      .ok { s with
        candidates := s.candidates ++ [{ id := s.nextCandidateId, election_id := electionId,
                                         name := name, description := description,
                                         blockchain_hash := blockchainHash,
                                         created_at := now }],
        nextCandidateId := s.nextCandidateId + 1 }

/-- The expression `candidate.description && candidate.description.trim() ?
candidate.description.trim() : null`. -/
def storedDescription : Option Text → Option Text
  | none => none
  | some d => if d ≠ [] ∧ trim d ≠ [] then some (trim d) else none

/-- The loop `for (const candidate of candidates)` of the inserts.  Each insert
is its own statement on an auto-commit connection: a refused insert throws and
leaves the earlier rows in place.  The flag tells whether the loop completed. -/
def insertCandidates (sha256 : Text → Text) (now electionId : Nat) :
    List CandidateInput → Store → Store × Bool
  | [], s => (s, true)
  | c :: cs, s =>
    let candidateHash := generateBlockchainHash sha256
      [("name".toList, Json.ofOptText c.name), ("electionId".toList, .num electionId)]
    match insertCandidate s now electionId c.name (storedDescription c.description)
        candidateHash with
    | .error _ => (s, false)
    | .ok s1 => insertCandidates sha256 now electionId cs s1

/-- The handler of `POST /api/elections`.  The ledger call in the `if (web3)`
block stores nothing and its errors are caught, so `oracle` is not read. -/
def createElection (sha256 : Text → Text) (s : Store) (now : Nat) (user : AuthUser)
    (body : ElectionBody) (_oracle : Oracle) : Store × Response :=
  if user.role ≠ .admin then (s, .adminRequired)
  else if invalidRequired body.title then (s, .validTitleRequired)
  else if invalidOptional body.description then (s, .validDescriptionRequired)
  else
    match body.title, body.startDate, body.endDate, body.candidates with
    | some title, some startDate, some endDate, some (c :: cs) =>
      match validateCandidates (c :: cs) with
      | some rejection => (s, rejection)
      | none =>
        let blockchainHash := generateBlockchainHash sha256
          [("title".toList, .str title),
           ("description".toList, Json.ofOptText body.description),
           ("startDate".toList, .num startDate), ("endDate".toList, .num endDate),
           ("createdBy".toList, .num user.userId)]
        match insertElection s now title body.description startDate endDate blockchainHash
            user.userId with
        | .error _ => (s, .internalServerError)
        | .ok (s1, electionId) =>
          match insertCandidates sha256 now electionId (c :: cs) s1 with
          | (s2, false) => (s2, .internalServerError)
          | (s2, true) => (s2, .electionCreated electionId blockchainHash)
    | _, _, _, _ => (s, .requiredFieldsMissing)

/-! ## Deletions -/

/-- The statement `DELETE FROM elections WHERE id = ?` with the cascades of
the schema: the election's candidates go (`candidates.election_id ... ON DELETE
CASCADE`), and so does every vote that references the election or one of those
candidates (`votes.election_id` and `votes.candidate_id ... ON DELETE CASCADE`). -/
def deleteElectionRow (s : Store) (electionId : Nat) : Store :=
  { s with
    elections := s.elections.filter fun e => e.id ≠ electionId,
    candidates := s.candidates.filter fun c => c.election_id ≠ electionId,
    votes := s.votes.filter fun v =>
      v.election_id ≠ electionId ∧
      ¬ ∃ c ∈ s.candidates, c.election_id = electionId ∧ c.id = v.candidate_id }

/-- The handler of `DELETE /api/elections/:id`. -/
def deleteElection (s : Store) (user : AuthUser) (electionId : Nat) : Store × Response :=
  if user.role ≠ .admin then (s, .adminRequired)
  else
    let vote_count := (s.votes.filter fun v => v.election_id = electionId).length
    if vote_count > 0 then (s, .cannotDeleteElection)
    else if (s.elections.filter fun e => e.id = electionId).length = 0 then
      (s, .electionNotFound)
    else (deleteElectionRow s electionId, .electionDeleted)

/-- The handler of `DELETE /api/voters/:id`.  The statement `DELETE FROM users
WHERE id = ? AND role = "voter"` is refused while a vote or an election still
references the user (`votes.voter_id`, `elections.created_by`, no cascade). -/
def deleteVoter (s : Store) (user : AuthUser) (voterId : Nat) : Store × Response :=
  if user.role ≠ .admin then (s, .adminRequired)
  else
    let vote_count := (s.votes.filter fun v => v.voter_id = voterId).length
    if vote_count > 0 then (s, .cannotDeleteVoter)
    else if (s.users.filter fun u => u.id = voterId ∧ u.role = .voter).length = 0 then
      (s, .voterNotFound)
    else if (∃ v ∈ s.votes, v.voter_id = voterId) ∨
        (∃ e ∈ s.elections, e.created_by = voterId) then (s, .internalServerError)
    else
      ({ s with users := s.users.filter fun u => ¬ (u.id = voterId ∧ u.role = .voter) },
       .voterDeleted)

/-! ## Registration (`POST /api/register`) -/

/-- The characters of `specialCharRegex`. -/
def specialChars : List Char :=
  "!@#$%^&*(),.?:|<>".toList ++ [Char.ofNat 34, Char.ofNat 123, Char.ofNat 125]

/-- Source function `validatePassword`: the rejection, if any. -/
def validatePassword (password : Text) : Option Response :=
  if utf16Length password < 6 then some .passwordTooShort
  else if ¬ ∃ c ∈ password, c ∈ specialChars then some .passwordNeedsSpecial
  else none

/-- The value of `users.role` for a request's role text; any other text is
refused by the `ENUM` column. -/
def parseRole (role : Text) : Option Role :=
  if role = "admin".toList then some .admin
  else if role = "voter".toList then some .voter
  else none

/-- The handler of `POST /api/register`. -/
def register (s : Store) (now : Nat) (name email password role : Text) : Store × Response :=
  if name = [] ∨ email = [] ∨ password = [] ∨ role = [] then (s, .allFieldsRequired)
  else
    match validatePassword password with
    | some rejection => (s, rejection)
    | none =>
      if (s.users.filter fun u => u.email = email).length > 0 then (s, .userExists)
      else
        match parseRole role with
        | none => (s, .registrationFailed)
        | some r =>
          if name.length > 255 ∨ email.length > 255 then (s, .registrationFailed)
          else
            ({ s with
               users := s.users ++ [{ id := s.nextUserId, name := name, email := email,
                                      role := r, created_at := now }],
               nextUserId := s.nextUserId + 1 }, .registered s.nextUserId)

/-! ## The election listing (`GET /api/elections`) -/

/-- Column `total_votes`: `SELECT COUNT(*) FROM votes v WHERE v.election_id = e.id`. -/
def total_votes (s : Store) (electionId : Nat) : Nat :=
  (s.votes.filter fun v => v.election_id = electionId).length

/-- Column `unique_voters`: `SELECT COUNT(DISTINCT v.voter_id) FROM votes v
WHERE v.election_id = e.id`. -/
def unique_voters (s : Store) (electionId : Nat) : Nat :=
  ((s.votes.filter fun v => v.election_id = electionId).map (·.voter_id)).dedup.length

/-- Column `vote_count`: `SELECT COUNT(*) FROM votes v WHERE v.candidate_id = c.id`. -/
def vote_count (s : Store) (candidateId : Nat) : Nat :=
  (s.votes.filter fun v => v.candidate_id = candidateId).length

/-- One row of the candidate query: `c.*` and `vote_count`. -/
structure CandidateRow where
  candidate : Candidate
  vote_count : Nat
deriving DecidableEq, Repr

/-- The rows selected by `FROM candidates c WHERE c.election_id = ?`, in table
(creation) order.  The order in which `ORDER BY vote_count DESC` returns them
is the database engine's and is not modelled. -/
def candidateRows (s : Store) (electionId : Nat) : List CandidateRow :=
  (s.candidates.filter fun c => c.election_id = electionId).map fun c =>
    { candidate := c, vote_count := vote_count s c.id }

/-! ## Runs of the server -/

/-- The requests that write to the store. -/
inductive Request where
  | register (name email password role : Text)
  | createElection (user : AuthUser) (body : ElectionBody) (oracle : Oracle)
  | castVote (user : AuthUser) (electionId candidateId : Nat) (oracle : Oracle)
      (timestamp : Nat)
  | getElections
  | updateStatus
  | deleteElection (user : AuthUser) (electionId : Nat)
  | deleteVoter (user : AuthUser) (voterId : Nat)
deriving DecidableEq, Repr

/-- One request served at database time `now`. -/
def step (sha256 : Text → Text) (s : Store) (now : Nat) : Request → Store × Response
  | .register name email password role => register s now name email password role
  | .createElection user body oracle => createElection sha256 s now user body oracle
  | .castVote user electionId candidateId oracle timestamp =>
    castVote sha256 s now user electionId candidateId oracle timestamp
  | .getElections => (updateStatusAll s now, .electionList)
  | .updateStatus => (updateStatusAll s now, .statusUpdated)
  | .deleteElection user electionId => deleteElection s user electionId
  | .deleteVoter user voterId => deleteVoter s user voterId

/-- The store after a sequence of timed requests, served one after the other. -/
def run (sha256 : Text → Text) (s : Store) : List (Nat × Request) → Store
  | [] => s
  | (now, r) :: rest => run sha256 (step sha256 s now r).1 rest

/-- The stores the server can be in: the empty store, and any store one
request away from a reachable one. -/
inductive Reachable (sha256 : Text → Text) : Store → Prop where
  | init : Reachable sha256 Store.empty
  | next {s : Store} (now : Nat) (r : Request) :
      Reachable sha256 s → Reachable sha256 (step sha256 s now r).1

/-! ## Integrity of the store -/

/-- The ids of the election rows. -/
def Store.electionIds (s : Store) : List Nat := s.elections.map (·.id)

/-- The ids of the candidate rows. -/
def Store.candidateIds (s : Store) : List Nat := s.candidates.map (·.id)

/-- The ids of the user rows. -/
def Store.userIds (s : Store) : List Nat := s.users.map (·.id)

/-- The constraints declared by the schema of `initDatabase`: primary keys
(distinct, handed out by the counters), `UNIQUE KEY unique_vote (election_id,
voter_id)`, and the foreign keys of `candidates` and `votes`. -/
structure Store.Consistent (s : Store) : Prop where
  electionKey : s.electionIds.Nodup
  electionFresh : ∀ i ∈ s.electionIds, i < s.nextElectionId
  candidateKey : s.candidateIds.Nodup
  candidateFresh : ∀ i ∈ s.candidateIds, i < s.nextCandidateId
  uniqueVote : s.votes.Pairwise fun a b =>
    ¬ (a.election_id = b.election_id ∧ a.voter_id = b.voter_id)
  candidateElection : ∀ c ∈ s.candidates, c.election_id ∈ s.electionIds
  voteElection : ∀ v ∈ s.votes, v.election_id ∈ s.electionIds
  voteCandidate : ∀ v ∈ s.votes, v.candidate_id ∈ s.candidateIds
  voteVoter : ∀ v ∈ s.votes, v.voter_id ∈ s.userIds

/-! ## Words of the specification -/

/-- A text that, once trimmed, is empty or consists only of dashes and
whitespace. -/
def PlaceholderOnly (t : Text) : Prop :=
  ∀ ch ∈ trim t, ch = '-' ∨ jsWhitespace ch = true

instance (t : Text) : Decidable (PlaceholderOnly t) :=
  inferInstanceAs (Decidable (∀ ch ∈ trim t, ch = '-' ∨ jsWhitespace ch = true))

/-! ## The records that are digested -/

/-- The object `electionData` of `POST /api/elections`. -/
def electionRecord (title : Text) (description : Option Text)
    (startDate endDate createdBy : Nat) : List (Text × Json) :=
  [("title".toList, .str title), ("description".toList, Json.ofOptText description),
   ("startDate".toList, .num startDate), ("endDate".toList, .num endDate),
   ("createdBy".toList, .num createdBy)]

/-- The object `{ name: candidate.name, electionId }` of the candidate loop. -/
def candidateRecord (name : Option Text) (electionId : Nat) : List (Text × Json) :=
  [("name".toList, Json.ofOptText name), ("electionId".toList, .num electionId)]

/-- The object `{ electionId, candidateId, voterId, timestamp }` of `POST
/api/vote`. -/
def voteRecord (electionId candidateId voterId timestamp : Nat) : List (Text × Json) :=
  [("electionId".toList, .num electionId), ("candidateId".toList, .num candidateId),
   ("voterId".toList, .num voterId), ("timestamp".toList, .num timestamp)]

/-- The row `INSERT INTO elections` writes for a request, `status` at its
default. -/
def electionRow (sha256 : Text → Text) (s : Store) (now : Nat) (title : Text)
    (description : Option Text) (startDate endDate createdBy : Nat) : Election :=
  { id := s.nextElectionId, title := title, description := description,
    start_date := startDate, end_date := endDate, status := .upcoming,
    blockchain_hash :=
      generateBlockchainHash sha256 (electionRecord title description startDate endDate createdBy),
    created_by := createdBy, created_at := now }

/-- The values that `JSON.stringify` writes as this model does and tells
apart: `null`, a string, and a non-negative integer below 2^53. -/
def Json.Plain : Json → Prop
  | .null => True
  | .num n => n < 2 ^ 53
  | .str _ => True
  | .nonFinite _ => False

/-- A record all of whose field values are plain. -/
def PlainRecord (data : List (Text × Json)) : Prop :=
  ∀ m ∈ data, m.2.Plain

/-! ## The candidate rows of one request -/

/-- Whether the columns of `candidates` take the row written for a candidate:
a name (`NOT NULL`) of at most 255 characters and a stored description of at
most 65535 bytes. -/
def CandidateInput.fits (c : CandidateInput) : Bool :=
  match c.name with
  | none => false
  | some name =>
    decide (name.length ≤ 255) &&
      decide (((storedDescription c.description).map utf8Length).getD 0 ≤ 65535)

/-- The row the candidate loop writes for a candidate that receives `id`. -/
def candidateRow (sha256 : Text → Text) (now electionId id : Nat) (c : CandidateInput) :
    Candidate :=
  { id := id, election_id := electionId, name := c.name.getD [],
    description := storedDescription c.description,
    blockchain_hash := generateBlockchainHash sha256 (candidateRecord c.name electionId),
    created_at := now }

/-- The rows written for consecutive candidates, the first receiving `first`. -/
def candidateRowsFrom (sha256 : Text → Text) (now electionId : Nat) :
    Nat → List CandidateInput → List Candidate
  | _, [] => []
  | first, c :: cs =>
    candidateRow sha256 now electionId first c ::
      candidateRowsFrom sha256 now electionId (first + 1) cs

/-! ## Reading the serialisation back

Used only to show that the serialisation determines the record.
-/

/-- Value of a decimal digit character. -/
def digitValue (c : Char) : Nat := c.toNat - 48

/-- The number a decimal numeral denotes. -/
def readDigits (t : Text) : Nat :=
  t.foldl (fun acc c => acc * 10 + digitValue c) 0

/-- Value of a hexadecimal digit character, lower case as `JSON.stringify`
writes it. -/
def hexValue (c : Char) : Nat :=
  if c.toNat < 58 then c.toNat - 48 else c.toNat - 87

/-- The character that an escape letter after a backslash stands for. -/
def escapeLetter (e : Char) : Option Char :=
  if e.toNat = 34 then some (Char.ofNat 34)
  else if e.toNat = 92 then some (Char.ofNat 92)
  else if e = 'b' then some (Char.ofNat 8)
  else if e = 't' then some (Char.ofNat 9)
  else if e = 'n' then some (Char.ofNat 10)
  else if e = 'f' then some (Char.ofNat 12)
  else if e = 'r' then some (Char.ofNat 13)
  else none

/-- The first character of the body of a quoted JSON string and the text that
follows its rendering; `none` at the closing quote and on a malformed escape. -/
def jsonUnescapeChar : Text → Option (Char × Text)
  | [] => none
  | c :: rest =>
    if c.toNat = 34 then none
    else if c.toNat = 92 then
      match rest with
      | [] => none
      | e :: rest1 =>
        if e = 'u' then
          match rest1 with
          | _ :: _ :: h1 :: h2 :: rest2 =>
            some (Char.ofNat (hexValue h1 * 16 + hexValue h2), rest2)
          | _ => none
        else (escapeLetter e).map fun ch => (ch, rest1)
    else some (c, rest)

/-- What follows a value inside an object: a comma or the closing brace. -/
def AfterValue (r : Text) : Prop :=
  ∃ d t, r = d :: t ∧ (d = ',' ∨ d = Char.ofNat 125)

/-- The text after the first member of an object whose other members are
`rest` and whose rendering is followed by `z`. -/
def membersTail (rest : List (Text × Json)) (z : Text) : Text :=
  match rest with
  | [] => z
  | _ :: _ => ',' :: (renderMembers rest ++ z)

/-! ## A sample run

The scenario of the specification: an election open from `T = 1000` to
`T + 3600` with candidates Alice and Bob, a second election with candidates
Carol and Dave, one administrator and two voters.
-/

/-- A stand-in for the digest when a run is evaluated: 64 characters, the
start of the digested text padded with zeros. -/
def demoDigest : Text → Text := fun t => (t ++ List.replicate 64 '0').take 64

/-- The administrator's token (user 1). -/
def demoAdmin : AuthUser := { userId := 1, role := .admin }

/-- The token of voter V1 (user 2). -/
def demoV1 : AuthUser := { userId := 2, role := .voter }

/-- The token of voter V2 (user 3). -/
def demoV2 : AuthUser := { userId := 3, role := .voter }

/-- The election of the scenario: candidates Alice and Bob. -/
def demoMayor : ElectionBody :=
  { title := some "Mayor 2025".toList, description := none,
    startDate := some 1000, endDate := some 4600,
    candidates := some [{ name := some "Alice".toList, description := none },
                        { name := some "Bob".toList, description := none }] }

/-- A second election over the same period: candidates Carol and Dave. -/
def demoCouncil : ElectionBody :=
  { title := some "Council 2025".toList, description := none,
    startDate := some 1000, endDate := some 4600,
    candidates := some [{ name := some "Carol".toList, description := none },
                        { name := some "Dave".toList, description := none }] }

/-- Three registrations and the two elections: users 1 to 3, elections 1 and
2, candidates 1 and 2 (Mayor) and 3 and 4 (Council). -/
def demoSetupRequests : List (Nat × Request) :=
  [(10, .register "Root".toList "root@vote.example".toList "secret!".toList "admin".toList),
   (20, .register "Vera".toList "vera@vote.example".toList "secret!".toList "voter".toList),
   (30, .register "Vito".toList "vito@vote.example".toList "secret!".toList "voter".toList),
   (40, .createElection demoAdmin demoMayor .absent),
   (50, .createElection demoAdmin demoCouncil .absent)]

/-- The store once the elections exist and nobody has voted. -/
def demoSetup : Store := run demoDigest Store.empty demoSetupRequests

/-- At `T + 1` voter V1 votes for Alice in the Mayor election. -/
def demoVoteRequests : List (Nat × Request) :=
  demoSetupRequests ++ [(1001, .castVote demoV1 1 1 .absent 1001000)]

/-- The store after V1 has voted. -/
def demoVoted : Store := run demoDigest Store.empty demoVoteRequests

/-- After V1, voter V2 votes in the Mayor election (1) for Carol, candidate 3
of the Council election (2). -/
def demoCrossRequests : List (Nat × Request) :=
  demoVoteRequests ++ [(1002, .castVote demoV2 1 3 .absent 1002000)]

/-- The store after the vote that names another election's candidate. -/
def demoCross : Store := run demoDigest Store.empty demoCrossRequests

/-- An election whose end precedes its start, as `POST /api/elections` stores
it: the validation compares neither date with the other. -/
def demoBackwards : ElectionBody :=
  { title := some "Backwards".toList, description := none,
    startDate := some 10, endDate := some 5,
    candidates := some [{ name := some "Eve".toList, description := none }] }

/-- What a second request of voter V1 commits between another request's
pre-check and insert: V1's vote for Alice. -/
def demoOtherRequest (s : Store) : Store :=
  (castVote demoDigest s 1001 demoV1 1 1 .absent 1001000).1

/-- The Mayor request with a title of one dash between blanks. -/
def demoDashTitle : ElectionBody :=
  { title := some " - ".toList, description := none,
    startDate := some 1000, endDate := some 4600,
    candidates := some [{ name := some "Alice".toList, description := none },
                        { name := some "Bob".toList, description := none }] }

/-! ## More sample requests -/

/-- A request whose second candidate has a name of 256 characters, one more
than `candidates.name VARCHAR(255)` takes. -/
def demoLongName : ElectionBody :=
  { title := some "Senate 2025".toList, description := none,
    startDate := some 1000, endDate := some 4600,
    candidates := some [{ name := some "Alice".toList, description := none },
                        { name := some (List.replicate 256 'x'), description := none }] }

/-- The Mayor request without an end date. -/
def demoNoEnd : ElectionBody :=
  { title := some "Mayor 2025".toList, description := none,
    startDate := some 1000, endDate := none,
    candidates := some [{ name := some "Alice".toList, description := none }] }

/-- A ledger that accepted the transaction and returned its hash. -/
def demoTx : Oracle := .tx "0x5d7f9a1c".toList

/-- The vote of V1 for Alice, the first row of `votes`. -/
def demoFirstVote : Vote :=
  demoVoted.votes.headD
    { id := 0, election_id := 0, candidate_id := 0, voter_id := 0, blockchain_hash := [],
      vote_hash := [], created_at := 0 }

/-- What follows V1's vote in the sample run: election 2 is deleted, V2 votes
for Bob, and the admin tries to delete election 1 and voter V1. -/
def demoLaterRequests : List (Nat × Request) :=
  [(2000, .deleteElection demoAdmin 2), (2001, .castVote demoV2 1 2 .absent 2001000),
   (2002, .deleteElection demoAdmin 1), (2003, .deleteVoter demoAdmin 2)]

/-- A ledger answer of 67 characters, one more than `blockchain_hash
VARCHAR(66)` takes. -/
def demoLongTx : Oracle := .tx (List.replicate 67 'f')

/-- The vote record of V2 for election 1 when the request body gives
`candidateId` as `1e999`. -/
def demoInfiniteVote : List (Text × Json) :=
  [("electionId".toList, .num 1), ("candidateId".toList, .nonFinite false),
   ("voterId".toList, .num 3), ("timestamp".toList, .num 1002000)]

/-- The same record when the body gives `candidateId` as `-1e999`. -/
def demoMinusInfiniteVote : List (Text × Json) :=
  [("electionId".toList, .num 1), ("candidateId".toList, .nonFinite true),
   ("voterId".toList, .num 3), ("timestamp".toList, .num 1002000)]

/-! # Theorems -/

/-! ## The status rule -/

theorem caseArm_ne_else (now start_date end_date : Nat) :
    caseArm now start_date end_date ≠ .elseKeep := by
  unfold caseArm
  split_ifs <;> first | decide | omega

theorem statusCase_eq_active_iff (now start_date end_date : Nat) (stored : Status) :
    statusCase now start_date end_date stored = .active ↔
      start_date ≤ now ∧ now < end_date := by
  unfold statusCase caseArm
  split_ifs <;> simp <;> omega

/-! ## Every request keeps the store consistent -/

theorem consistent_empty : Store.empty.Consistent := by
  constructor <;> simp [Store.empty, Store.electionIds, Store.candidateIds, Store.userIds]

theorem refreshElection_id (now : Nat) (e : Election) : (refreshElection now e).id = e.id := rfl

theorem updateStatusWhere_electionIds (s : Store) (now electionId : Nat) :
    (updateStatusWhere s now electionId).electionIds = s.electionIds := by
  simp only [updateStatusWhere, Store.electionIds, List.map_map]
  apply List.map_congr_left
  intro e _
  simp only [Function.comp]
  split_ifs <;> rfl

theorem updateStatusAll_electionIds (s : Store) (now : Nat) :
    (updateStatusAll s now).electionIds = s.electionIds := by
  simp only [updateStatusAll, Store.electionIds, List.map_map]
  apply List.map_congr_left
  intro e _
  rfl

theorem consistent_of_frame {s t : Store} (h : s.Consistent)
    (he : t.electionIds = s.electionIds) (hc : t.candidates = s.candidates)
    (hv : t.votes = s.votes) (hu : ∀ i ∈ s.userIds, (∃ v ∈ s.votes, v.voter_id = i) → i ∈ t.userIds)
    (hne : t.nextElectionId = s.nextElectionId)
    (hnc : t.nextCandidateId = s.nextCandidateId) : t.Consistent := by
  have hci : t.candidateIds = s.candidateIds := by simp [Store.candidateIds, hc]
  constructor
  · rw [he]; exact h.electionKey
  · rw [he, hne]; exact h.electionFresh
  · rw [hci]; exact h.candidateKey
  · rw [hci, hnc]; exact h.candidateFresh
  · rw [hv]; exact h.uniqueVote
  · rw [hc, he]; exact h.candidateElection
  · rw [hv, he]; exact h.voteElection
  · rw [hv, hci]; exact h.voteCandidate
  · rw [hv]
    intro v hv'
    exact hu _ (h.voteVoter v hv') ⟨v, hv', rfl⟩

theorem updateStatusWhere_consistent {s : Store} (h : s.Consistent) (now electionId : Nat) :
    (updateStatusWhere s now electionId).Consistent :=
  consistent_of_frame h (updateStatusWhere_electionIds s now electionId) rfl rfl (fun _ h _ => h) rfl rfl

theorem updateStatusAll_consistent {s : Store} (h : s.Consistent) (now : Nat) :
    (updateStatusAll s now).Consistent :=
  consistent_of_frame h (updateStatusAll_electionIds s now) rfl rfl (fun _ h _ => h) rfl rfl

theorem insertVote_ok {s t : Store} {now e c u : Nat} {bh vh : Text}
    (h : insertVote s now e c u bh vh = .ok t) :
    (¬ ∃ v ∈ s.votes, v.election_id = e ∧ v.voter_id = u) ∧
    e ∈ s.electionIds ∧ c ∈ s.candidateIds ∧ u ∈ s.userIds ∧
    t = { s with
      votes := s.votes ++ [{ id := s.nextVoteId, election_id := e, candidate_id := c,
                             voter_id := u, blockchain_hash := bh, vote_hash := vh,
                             created_at := now }],
      nextVoteId := s.nextVoteId + 1 } := by
  unfold insertVote at h
  split_ifs at h with h1 h2 h3 h4
  simp only [Except.ok.injEq] at h
  refine ⟨h1, ?_, ?_, ?_, h.symm⟩
  · simpa [Store.electionIds] using h2
  · simpa [Store.candidateIds] using h3
  · simpa [Store.userIds] using h4

theorem insertVote_consistent {s t : Store} {now e c u : Nat} {bh vh : Text}
    (hs : s.Consistent) (h : insertVote s now e c u bh vh = .ok t) : t.Consistent := by
  obtain ⟨hdup, he, hc, hu, rfl⟩ := insertVote_ok h
  constructor
  · exact hs.electionKey
  · exact hs.electionFresh
  · exact hs.candidateKey
  · exact hs.candidateFresh
  · simp only [List.pairwise_append, List.pairwise_cons, List.Pairwise.nil, List.mem_singleton]
    refine ⟨hs.uniqueVote, by simp, ?_⟩
    intro a ha b hb hab
    subst hb
    exact hdup ⟨a, ha, hab.1, hab.2⟩
  · exact hs.candidateElection
  · intro v hv
    simp only [List.mem_append, List.mem_singleton] at hv
    rcases hv with hv | rfl
    · exact hs.voteElection v hv
    · exact he
  · intro v hv
    simp only [List.mem_append, List.mem_singleton] at hv
    rcases hv with hv | rfl
    · exact hs.voteCandidate v hv
    · exact hc
  · intro v hv
    simp only [List.mem_append, List.mem_singleton] at hv
    rcases hv with hv | rfl
    · exact hs.voteVoter v hv
    · exact hu

theorem castVoteChecks_fst (s : Store) (now : Nat) (user : AuthUser) (e c : Nat) :
    (castVoteChecks s now user e c).1 = s ∨
    (castVoteChecks s now user e c).1 = updateStatusWhere s now e := by
  unfold castVoteChecks
  split_ifs
  · left; rfl
  · left; rfl
  · right
    simp only
    split
    · rfl
    · split_ifs <;> rfl

theorem castVoteChecks_consistent {s : Store} (hs : s.Consistent) (now : Nat) (user : AuthUser)
    (e c : Nat) : (castVoteChecks s now user e c).1.Consistent := by
  rcases castVoteChecks_fst s now user e c with h | h <;> rw [h]
  · exact hs
  · exact updateStatusWhere_consistent hs now e

theorem castVoteInsert_consistent (sha256 : Text → Text) {s : Store} (hs : s.Consistent)
    (now : Nat) (user : AuthUser) (e c : Nat) (oracle : Oracle) (ts : Nat) :
    (castVoteInsert sha256 s now user e c oracle ts).1.Consistent := by
  unfold castVoteInsert
  simp only
  split
  · exact hs
  · next s2 h => exact insertVote_consistent hs h

theorem castVote_consistent (sha256 : Text → Text) {s : Store} (hs : s.Consistent)
    (now : Nat) (user : AuthUser) (e c : Nat) (oracle : Oracle) (ts : Nat) :
    (castVote sha256 s now user e c oracle ts).1.Consistent := by
  have h1 := castVoteChecks_consistent hs now user e c
  unfold castVote
  split
  · next s1 r h => rw [h] at h1; exact h1
  · next s1 h =>
    rw [h] at h1
    exact castVoteInsert_consistent sha256 h1 now user e c oracle ts

theorem register_consistent {s : Store} (hs : s.Consistent) (now : Nat)
    (name email password role : Text) :
    (register s now name email password role).1.Consistent := by
  have key : ∀ (t : Store) (u : User), t.elections = s.elections → t.candidates = s.candidates →
      t.votes = s.votes → t.users = s.users ++ [u] → t.nextElectionId = s.nextElectionId →
      t.nextCandidateId = s.nextCandidateId → t.Consistent := by
    intro t u h1 h2 h3 h4 h5 h6
    refine consistent_of_frame hs (by simp [Store.electionIds, h1]) h2 h3 ?_ h5 h6
    intro i hi _
    simp only [Store.userIds, h4, List.map_append, List.mem_append] at hi ⊢
    exact Or.inl hi
  unfold register
  repeat' split
  all_goals first
    | exact hs
    | exact key _ _ rfl rfl rfl rfl rfl rfl

theorem insertElection_consistent {s t : Store} {now : Nat} {title : Text}
    {description : Option Text} {sd ed : Nat} {bh : Text} {creator id : Nat}
    (hs : s.Consistent)
    (h : insertElection s now title description sd ed bh creator = .ok (t, id)) :
    t.Consistent ∧ id ∈ t.electionIds ∧ t.votes = s.votes := by
  unfold insertElection at h
  split_ifs at h
  simp only [Except.ok.injEq, Prod.mk.injEq] at h
  obtain ⟨rfl, rfl⟩ := h
  refine ⟨?_, by simp [Store.electionIds], rfl⟩
  have hmem : ∀ i, i ∈ s.electionIds → ∀ x : Election,
      i ∈ List.map (·.id) (s.elections ++ [x]) := by
    intro i hi x
    simp only [Store.electionIds, List.map_append, List.mem_append] at hi ⊢
    exact Or.inl hi
  constructor
  · simp only [Store.electionIds, List.map_append, List.map_cons, List.map_nil]
    rw [List.nodup_append]
    refine ⟨hs.electionKey, by simp, ?_⟩
    intro a ha hb
    simp only [List.mem_singleton] at hb
    have := hs.electionFresh a ha
    omega
  · intro i hi
    simp only [Store.electionIds, List.map_append, List.map_cons, List.map_nil,
      List.mem_append, List.mem_singleton] at hi
    rcases hi with hi | rfl
    · have := hs.electionFresh i (by simpa [Store.electionIds] using hi)
      show i < s.nextElectionId + 1
      omega
    · show s.nextElectionId < s.nextElectionId + 1
      omega
  · exact hs.candidateKey
  · exact hs.candidateFresh
  · exact hs.uniqueVote
  · intro c hc
    exact hmem _ (hs.candidateElection c hc) _
  · intro v hv
    exact hmem _ (hs.voteElection v hv) _
  · exact hs.voteCandidate
  · exact hs.voteVoter

theorem insertCandidate_consistent {s t : Store} {now e : Nat} {name description : Option Text}
    {bh : Text} (hs : s.Consistent)
    (h : insertCandidate s now e name description bh = .ok t) :
    t.Consistent ∧ t.votes = s.votes ∧ t.elections = s.elections := by
  unfold insertCandidate at h
  split at h
  · cases h
  · next nm =>
    split_ifs at h with h1 h2 h3
    simp only [Except.ok.injEq] at h
    subst h
    refine ⟨?_, rfl, rfl⟩
    have hmem : ∀ i, i ∈ s.candidateIds → ∀ x : Candidate,
        i ∈ List.map (·.id) (s.candidates ++ [x]) := by
      intro i hi x
      simp only [Store.candidateIds, List.map_append, List.mem_append] at hi ⊢
      exact Or.inl hi
    constructor
    · exact hs.electionKey
    · exact hs.electionFresh
    · simp only [Store.candidateIds, List.map_append, List.map_cons, List.map_nil]
      rw [List.nodup_append]
      refine ⟨hs.candidateKey, by simp, ?_⟩
      intro a ha hb
      simp only [List.mem_singleton] at hb
      have := hs.candidateFresh a ha
      omega
    · intro i hi
      simp only [Store.candidateIds, List.map_append, List.map_cons, List.map_nil,
        List.mem_append, List.mem_singleton] at hi
      rcases hi with hi | rfl
      · have := hs.candidateFresh i (by simpa [Store.candidateIds] using hi)
        show i < s.nextCandidateId + 1
        omega
      · show s.nextCandidateId < s.nextCandidateId + 1
        omega
    · exact hs.uniqueVote
    · intro c hc
      simp only [List.mem_append, List.mem_singleton] at hc
      rcases hc with hc | rfl
      · exact hs.candidateElection c hc
      · simpa [Store.electionIds] using h3
    · exact hs.voteElection
    · intro v hv
      exact hmem _ (hs.voteCandidate v hv) _
    · exact hs.voteVoter

theorem insertCandidates_consistent (sha256 : Text → Text) (now e : Nat)
    (cs : List CandidateInput) {s : Store} (hs : s.Consistent) :
    (insertCandidates sha256 now e cs s).1.Consistent ∧
    (insertCandidates sha256 now e cs s).1.votes = s.votes := by
  induction cs generalizing s with
  | nil => exact ⟨hs, rfl⟩
  | cons c cs ih =>
    unfold insertCandidates
    simp only
    split
    · exact ⟨hs, rfl⟩
    · next s1 h =>
      obtain ⟨h1, h2, _⟩ := insertCandidate_consistent hs h
      obtain ⟨h3, h4⟩ := ih h1
      exact ⟨h3, h4.trans h2⟩

theorem createElection_consistent (sha256 : Text → Text) {s : Store} (hs : s.Consistent)
    (now : Nat) (user : AuthUser) (body : ElectionBody) (oracle : Oracle) :
    (createElection sha256 s now user body oracle).1.Consistent ∧
    (createElection sha256 s now user body oracle).1.votes = s.votes := by
  unfold createElection
  split_ifs
  · exact ⟨hs, rfl⟩
  · exact ⟨hs, rfl⟩
  · exact ⟨hs, rfl⟩
  · split
    · next title sd ed c cs _ _ _ _ =>
      split
      · exact ⟨hs, rfl⟩
      · simp only
        split
        · exact ⟨hs, rfl⟩
        · next s1 id h =>
          obtain ⟨h1, _, h2⟩ := insertElection_consistent hs h
          obtain ⟨h3, h4⟩ := insertCandidates_consistent sha256 now id (c :: cs) h1
          split
          · next s2 h5 =>
            rw [h5] at h3 h4
            exact ⟨h3, h4.trans h2⟩
          · next s2 h5 =>
            rw [h5] at h3 h4
            exact ⟨h3, h4.trans h2⟩
    · exact ⟨hs, rfl⟩

theorem deleteElectionRow_consistent {s : Store} (hs : s.Consistent) (e : Nat) :
    (deleteElectionRow s e).Consistent := by
  have hsubE : (deleteElectionRow s e).electionIds.Sublist s.electionIds :=
    List.Sublist.map _ (List.filter_sublist _)
  have hsubC : (deleteElectionRow s e).candidateIds.Sublist s.candidateIds :=
    List.Sublist.map _ (List.filter_sublist _)
  have keepE : ∀ i, i ∈ s.electionIds → i ≠ e → i ∈ (deleteElectionRow s e).electionIds := by
    intro i hi hne
    simp only [Store.electionIds, deleteElectionRow, List.mem_map, List.mem_filter] at hi ⊢
    obtain ⟨x, hx, rfl⟩ := hi
    exact ⟨x, ⟨hx, by simpa using hne⟩, rfl⟩
  constructor
  · exact hs.electionKey.sublist hsubE
  · intro i hi
    exact hs.electionFresh i (hsubE.subset hi)
  · exact hs.candidateKey.sublist hsubC
  · intro i hi
    exact hs.candidateFresh i (hsubC.subset hi)
  · exact hs.uniqueVote.sublist (List.filter_sublist _)
  · intro c hc
    simp only [deleteElectionRow, List.mem_filter, decide_eq_true_eq] at hc
    exact keepE _ (hs.candidateElection c hc.1) (by simpa using hc.2)
  · intro v hv
    simp only [deleteElectionRow, List.mem_filter, decide_eq_true_eq] at hv
    exact keepE _ (hs.voteElection v hv.1) hv.2.1
  · intro v hv
    simp only [deleteElectionRow, List.mem_filter, decide_eq_true_eq] at hv
    obtain ⟨hv1, _, hv3⟩ := hv
    have := hs.voteCandidate v hv1
    simp only [Store.candidateIds, deleteElectionRow, List.mem_map, List.mem_filter] at this ⊢
    obtain ⟨c, hc, hcid⟩ := this
    refine ⟨c, ⟨hc, ?_⟩, hcid⟩
    simp only [ne_eq, decide_not, Bool.not_eq_true', decide_eq_false_iff_not]
    intro hce
    exact hv3 ⟨c, hc, hce, hcid⟩
  · intro v hv
    simp only [deleteElectionRow, List.mem_filter] at hv
    exact hs.voteVoter v hv.1

theorem deleteElection_consistent {s : Store} (hs : s.Consistent) (user : AuthUser) (e : Nat) :
    (deleteElection s user e).1.Consistent := by
  unfold deleteElection
  simp only
  split_ifs
  · exact hs
  · exact hs
  · exact hs
  · exact deleteElectionRow_consistent hs e

theorem deleteVoter_consistent {s : Store} (hs : s.Consistent) (user : AuthUser) (voterId : Nat) :
    (deleteVoter s user voterId).1.Consistent := by
  unfold deleteVoter
  simp only
  split_ifs with h1 h2 h3 h4
  · exact hs
  · exact hs
  · exact hs
  · exact hs
  · refine consistent_of_frame hs rfl rfl rfl ?_ rfl rfl
    intro i hi hv
    simp only [Store.userIds, List.mem_map, List.mem_filter] at hi ⊢
    obtain ⟨u, hu, rfl⟩ := hi
    refine ⟨u, ⟨hu, ?_⟩, rfl⟩
    simp only [decide_not, Bool.not_eq_true', decide_eq_false_iff_not, not_and,
      decide_eq_true_eq]
    intro hid
    exfalso
    obtain ⟨v, hv, hvid⟩ := hv
    exact h4 (Or.inl ⟨v, hv, hvid.trans hid⟩)

theorem step_consistent (sha256 : Text → Text) {s : Store} (hs : s.Consistent) (now : Nat)
    (r : Request) : (step sha256 s now r).1.Consistent := by
  cases r with
  | register name email password role => exact register_consistent hs now name email password role
  | createElection user body oracle =>
    exact (createElection_consistent sha256 hs now user body oracle).1
  | castVote user e c oracle ts => exact castVote_consistent sha256 hs now user e c oracle ts
  | getElections => exact updateStatusAll_consistent hs now
  | updateStatus => exact updateStatusAll_consistent hs now
  | deleteElection user e => exact deleteElection_consistent hs user e
  | deleteVoter user v => exact deleteVoter_consistent hs user v

theorem reachable_consistent (sha256 : Text → Text) {s : Store} (h : Reachable sha256 s) :
    s.Consistent := by
  induction h with
  | init => exact consistent_empty
  | next now r _ ih => exact step_consistent sha256 ih now r

theorem reachable_run (sha256 : Text → Text) (rs : List (Nat × Request)) {s : Store}
    (h : Reachable sha256 s) : Reachable sha256 (run sha256 s rs) := by
  induction rs generalizing s with
  | nil => exact h
  | cons r rs ih => exact ih (Reachable.next r.1 r.2 h)

/-! ## Looking an election up by its id -/

theorem filter_key_eq_singleton {α : Type} (f : α → Nat) :
    ∀ (l : List α), (l.map f).Nodup → ∀ x ∈ l, l.filter (fun y => f y = f x) = [x]
  | [], _, x, hx => by cases hx
  | a :: l, hnd, x, hx => by
    rw [List.map_cons, List.nodup_cons] at hnd
    rcases List.mem_cons.1 hx with rfl | hx'
    · have : l.filter (fun y => decide (f y = f x)) = [] := by
        rw [List.filter_eq_nil_iff]
        intro y hy
        simp only [decide_eq_true_eq]
        intro h
        exact hnd.1 (h ▸ List.mem_map_of_mem f hy)
      simp [List.filter_cons, this]
    · have hne : f a ≠ f x := fun h => hnd.1 (h ▸ List.mem_map_of_mem f hx')
      simp [List.filter_cons, hne, filter_key_eq_singleton f l hnd.2 x hx']

theorem election_lookup {s : Store} (hs : s.Consistent) {el : Election} (hel : el ∈ s.elections) :
    s.elections.filter (fun x => x.id = el.id) = [el] :=
  filter_key_eq_singleton (fun x : Election => x.id) s.elections hs.electionKey el hel

theorem election_lookup_none {s : Store} {e : Nat} (h : ∀ el ∈ s.elections, el.id ≠ e) :
    s.elections.filter (fun x => x.id = e) = [] := by
  rw [List.filter_eq_nil_iff]
  intro y hy
  simpa using h y hy

theorem updateStatusWhere_lookup (s : Store) (now e : Nat) :
    (updateStatusWhere s now e).elections.filter (fun x => x.id = e) =
      (s.elections.filter (fun x => x.id = e)).map (refreshElection now) := by
  simp only [updateStatusWhere]
  induction s.elections with
  | nil => rfl
  | cons a l ih =>
    by_cases h : a.id = e
    · simp [List.filter_cons, h, refreshElection_id, ih]
    · simp [List.filter_cons, h, ih]

/-- The checks of `POST /api/vote` for a voter who names both ids, read off the
store before the refresh. -/
theorem castVoteChecks_eq (s : Store) (now : Nat) (user : AuthUser) (e c : Nat)
    (hrole : user.role = .voter) (he : e ≠ 0) (hc : c ≠ 0) :
    castVoteChecks s now user e c =
      (updateStatusWhere s now e,
        match s.elections.filter (fun x => x.id = e) with
        | [] => some .electionNotActive
        | el :: _ =>
          if el.start_date ≤ now ∧ now < el.end_date then
            if ∃ v ∈ s.votes, v.election_id = e ∧ v.voter_id = user.userId then
              some .alreadyVoted
            else none
          else some .electionNotActive) := by
  unfold castVoteChecks
  simp only [hrole, ne_eq, not_true_eq_false, if_false, he, hc, or_self]
  rw [updateStatusWhere_lookup]
  cases hfl : s.elections.filter (fun x => x.id = e) with
  | nil => rfl
  | cons el rest =>
    simp only [List.map_cons]
    have hact : (refreshElection now el).status = .active ↔
        el.start_date ≤ now ∧ now < el.end_date := statusCase_eq_active_iff _ _ _ _
    by_cases hwin : el.start_date ≤ now ∧ now < el.end_date
    · have h1 : (refreshElection now el).status = .active := hact.2 hwin
      simp only [h1, not_true_eq_false, if_false, hwin, and_self, if_true]
      by_cases hex : ∃ v ∈ s.votes, v.election_id = e ∧ v.voter_id = user.userId
      · have : (List.filter (fun v => decide (v.election_id = e ∧ v.voter_id = user.userId))
            (updateStatusWhere s now e).votes).length > 0 := by
          obtain ⟨v, hv, hv'⟩ := hex
          apply List.length_pos_of_mem (a := v)
          simp only [List.mem_filter, decide_eq_true_eq]
          exact ⟨hv, hv'⟩
        simp only [this, if_true, hex]
      · have : ¬ (List.filter (fun v => decide (v.election_id = e ∧ v.voter_id = user.userId))
            (updateStatusWhere s now e).votes).length > 0 := by
          intro hpos
          obtain ⟨v, hv⟩ := List.exists_mem_of_length_pos hpos
          simp only [List.mem_filter, decide_eq_true_eq] at hv
          exact hex ⟨v, hv.1, hv.2⟩
        simp only [this, if_false, hex]
    · have h1 : ¬ (refreshElection now el).status = .active := fun h => hwin (hact.1 h)
      simp only [h1, not_false_eq_true, if_true, hwin, if_false]

theorem castVoteInsert_votes (sha256 : Text → Text) (s : Store) (now : Nat) (user : AuthUser)
    (e c : Nat) (oracle : Oracle) (ts : Nat) :
    ((castVoteInsert sha256 s now user e c oracle ts).2.outcome ≠ .success ∧
      (castVoteInsert sha256 s now user e c oracle ts).1 = s) ∨
    ((castVoteInsert sha256 s now user e c oracle ts).2.outcome = .success ∧
      ∃ v : Vote, v.election_id = e ∧ v.candidate_id = c ∧ v.voter_id = user.userId ∧
        (castVoteInsert sha256 s now user e c oracle ts).1.votes = s.votes ++ [v]) := by
  unfold castVoteInsert
  simp only
  split
  · left; exact ⟨by simp [Response.outcome], rfl⟩
  · next s2 h =>
    right
    obtain ⟨_, _, _, _, rfl⟩ := insertVote_ok h
    exact ⟨rfl, _, rfl, rfl, rfl, rfl⟩

theorem castVote_eq (sha256 : Text → Text) (s : Store) (now : Nat) (user : AuthUser)
    (e c : Nat) (oracle : Oracle) (ts : Nat)
    (hrole : user.role = .voter) (he : e ≠ 0) (hc : c ≠ 0) :
    castVote sha256 s now user e c oracle ts =
      match s.elections.filter (fun x => x.id = e) with
      | [] => (updateStatusWhere s now e, .electionNotActive)
      | el :: _ =>
        if el.start_date ≤ now ∧ now < el.end_date then
          if ∃ v ∈ s.votes, v.election_id = e ∧ v.voter_id = user.userId then
            (updateStatusWhere s now e, .alreadyVoted)
          else castVoteInsert sha256 (updateStatusWhere s now e) now user e c oracle ts
        else (updateStatusWhere s now e, .electionNotActive) := by
  unfold castVote
  rw [castVoteChecks_eq s now user e c hrole he hc]
  cases s.elections.filter (fun x => x.id = e) with
  | nil => rfl
  | cons el rest =>
    simp only
    split_ifs <;> rfl

/-! ## Creating an election, step by step -/

theorem insertElection_ok {s t : Store} {now : Nat} {title : Text}
    {description : Option Text} {d1 d2 : Nat} {bh : Text} {creator id : Nat}
    (h : insertElection s now title description d1 d2 bh creator = .ok (t, id)) :
    id = s.nextElectionId ∧
    t = { s with
      elections := s.elections ++ [{
        id := s.nextElectionId, title := title, description := description,
        start_date := d1, end_date := d2, status := .upcoming,
        blockchain_hash := bh, created_by := creator, created_at := now }],
      nextElectionId := s.nextElectionId + 1 } := by
  unfold insertElection at h
  split_ifs at h
  simp only [Except.ok.injEq, Prod.mk.injEq] at h
  exact ⟨h.2.symm, h.1.symm⟩

theorem insertCandidate_frame {s t : Store} {now e : Nat} {name description : Option Text}
    {bh : Text} (h : insertCandidate s now e name description bh = .ok t) :
    t.elections = s.elections ∧ t.users = s.users ∧ t.votes = s.votes ∧
    s.candidates <+: t.candidates := by
  unfold insertCandidate at h
  split at h
  · cases h
  · split_ifs at h
    simp only [Except.ok.injEq] at h
    subst h
    exact ⟨rfl, rfl, rfl, List.prefix_append _ _⟩

theorem insertCandidates_frame (sha256 : Text → Text) (now e : Nat) :
    ∀ (cs : List CandidateInput) (s : Store),
      (insertCandidates sha256 now e cs s).1.elections = s.elections ∧
      (insertCandidates sha256 now e cs s).1.users = s.users ∧
      (insertCandidates sha256 now e cs s).1.votes = s.votes ∧
      s.candidates <+: (insertCandidates sha256 now e cs s).1.candidates
  | [], s => ⟨rfl, rfl, rfl, List.prefix_refl _⟩
  | c :: cs, s => by
    unfold insertCandidates
    simp only
    split
    · exact ⟨rfl, rfl, rfl, List.prefix_refl _⟩
    · next s1 h =>
      obtain ⟨h1, h2, h3, h4⟩ := insertCandidate_frame h
      obtain ⟨k1, k2, k3, k4⟩ := insertCandidates_frame sha256 now e cs s1
      exact ⟨k1.trans h1, k2.trans h2, k3.trans h3, h4.trans k4⟩

theorem insertCandidate_of_fits {s : Store} (now electionId : Nat) (c : CandidateInput)
    (bh : Text) (he : ∃ e ∈ s.elections, e.id = electionId) (hf : c.fits = true) :
    insertCandidate s now electionId c.name (storedDescription c.description) bh =
      .ok { s with
        candidates := s.candidates ++ [{
          id := s.nextCandidateId, election_id := electionId, name := c.name.getD [],
          description := storedDescription c.description, blockchain_hash := bh,
          created_at := now }],
        nextCandidateId := s.nextCandidateId + 1 } := by
  unfold CandidateInput.fits at hf
  unfold insertCandidate
  cases hn : c.name with
  | none => rw [hn] at hf; cases hf
  | some name =>
    rw [hn] at hf
    simp only [Bool.and_eq_true, decide_eq_true_eq] at hf
    have h1 : ¬ name.length > 255 := by omega
    have h2 : ¬ ((storedDescription c.description).map utf8Length).getD 0 > 65535 := by omega
    simp only [h1, h2, if_false, he, not_true_eq_false, Option.getD_some]

theorem insertCandidate_of_not_fits {s : Store} (now electionId : Nat) (c : CandidateInput)
    (bh : Text) (hf : c.fits = false) :
    ∃ err, insertCandidate s now electionId c.name (storedDescription c.description) bh =
      .error err := by
  unfold CandidateInput.fits at hf
  unfold insertCandidate
  cases hn : c.name with
  | none => exact ⟨_, rfl⟩
  | some name =>
    rw [hn] at hf
    simp only [Bool.and_eq_false_iff, decide_eq_false_iff_not] at hf
    simp only
    rcases hf with h | h
    · exact ⟨_, if_pos (by omega)⟩
    · by_cases h1 : name.length > 255
      · exact ⟨_, if_pos h1⟩
      · rw [if_neg h1]
        exact ⟨_, if_pos (by omega)⟩

/-- The candidate loop writes the rows of the candidates before the first one
that the table refuses, and completes exactly when there is none. -/
theorem insertCandidates_rows (sha256 : Text → Text) (now electionId : Nat) :
    ∀ (cs : List CandidateInput) (s : Store), (∃ e ∈ s.elections, e.id = electionId) →
      (insertCandidates sha256 now electionId cs s).1.candidates =
        s.candidates ++ candidateRowsFrom sha256 now electionId s.nextCandidateId
          (cs.takeWhile CandidateInput.fits) ∧
      (insertCandidates sha256 now electionId cs s).2 = cs.all CandidateInput.fits
  | [], s, _ => by simp [insertCandidates, candidateRowsFrom]
  | c :: cs, s, he => by
    unfold insertCandidates
    simp only
    by_cases hf : c.fits = true
    · have hins := insertCandidate_of_fits now electionId c
        (generateBlockchainHash sha256 (candidateRecord c.name electionId)) he hf
      simp only [candidateRecord] at hins
      rw [hins]
      simp only
      obtain ⟨k1, k2⟩ := insertCandidates_rows sha256 now electionId cs
        { s with
          candidates := s.candidates ++ [{
            id := s.nextCandidateId, election_id := electionId, name := c.name.getD [],
            description := storedDescription c.description,
            blockchain_hash := generateBlockchainHash sha256
              [("name".toList, Json.ofOptText c.name), ("electionId".toList, .num electionId)],
            created_at := now }],
          nextCandidateId := s.nextCandidateId + 1 } he
      rw [k1, k2]
      simp only [List.takeWhile_cons, hf, if_true, candidateRowsFrom, List.all_cons,
        Bool.true_and, List.append_assoc, List.singleton_append, candidateRow,
        candidateRecord, and_self]
    · have hf' : c.fits = false := by simpa using hf
      obtain ⟨err, herr⟩ := insertCandidate_of_not_fits (s := s) now electionId c
        (generateBlockchainHash sha256 (candidateRecord c.name electionId)) hf'
      simp only [candidateRecord] at herr
      rw [herr]
      simp [List.takeWhile_cons, hf', candidateRowsFrom]

/-- The handler of `POST /api/elections` once the role check and the
validation have passed. -/
theorem createElection_validated (sha256 : Text → Text) (s : Store) (now : Nat)
    (user : AuthUser) (body : ElectionBody) (oracle : Oracle)
    (title : Text) (sd ed : Nat) (c : CandidateInput) (cs : List CandidateInput)
    (hadmin : user.role = .admin) (ht : body.title = some title)
    (hvt : invalidRequired (some title) = false)
    (hvd : invalidOptional body.description = false)
    (hsd : body.startDate = some sd) (hed : body.endDate = some ed)
    (hcs : body.candidates = some (c :: cs))
    (hvc : validateCandidates (c :: cs) = none) :
    createElection sha256 s now user body oracle =
      match insertElection s now title body.description sd ed
          (generateBlockchainHash sha256 (electionRecord title body.description sd ed user.userId))
          user.userId with
      | .error _ => (s, .internalServerError)
      | .ok (s1, electionId) =>
        match insertCandidates sha256 now electionId (c :: cs) s1 with
        | (s2, false) => (s2, .internalServerError)
        | (s2, true) =>
          (s2, .electionCreated electionId
            (generateBlockchainHash sha256
              (electionRecord title body.description sd ed user.userId))) := by
  unfold createElection
  simp only [hadmin, ne_eq, not_true_eq_false, if_false, ht, hvt, hvd, hsd, hed, hcs, hvc,
    Bool.false_eq_true]
  rfl

/-! ## The serialisation determines the record -/

theorem digitValue_digitChar : ∀ k, k < 10 → digitValue (Nat.digitChar k) = k := by
  decide

theorem isDigit_digitChar : ∀ k, k < 10 → (Nat.digitChar k).isDigit = true := by
  decide

theorem foldl_toDigitsCore (fuel : Nat) :
    ∀ (n : Nat) (ds : Text), n < fuel →
      (Nat.toDigitsCore 10 fuel n ds).foldl (fun acc c => acc * 10 + digitValue c) 0 =
        ds.foldl (fun acc c => acc * 10 + digitValue c) n := by
  induction fuel with
  | zero => intro n ds h; omega
  | succ fuel ih =>
    intro n ds h
    unfold Nat.toDigitsCore
    simp only
    have hd : digitValue (Nat.digitChar (n % 10)) = n % 10 :=
      digitValue_digitChar _ (Nat.mod_lt _ (by decide))
    split_ifs with h0
    · simp only [List.foldl_cons, hd]
      have : n % 10 = n := by omega
      rw [this]
      simp
    · rw [ih (n / 10) _ (by omega)]
      simp only [List.foldl_cons, hd]
      have : n / 10 * 10 + n % 10 = n := by omega
      rw [this]

/-- Reading a numeral back gives the number. -/
theorem readDigits_digits (n : Nat) : readDigits (digits n) = n := by
  unfold readDigits digits Nat.toDigits
  rw [foldl_toDigitsCore (n + 1) n [] (by omega)]
  rfl

theorem digits_injective : Function.Injective digits := by
  intro a b h
  have := congrArg readDigits h
  rwa [readDigits_digits, readDigits_digits] at this

theorem isDigit_toDigitsCore (fuel : Nat) :
    ∀ (n : Nat) (ds : Text), (∀ c ∈ ds, c.isDigit = true) →
      ∀ c ∈ Nat.toDigitsCore 10 fuel n ds, c.isDigit = true := by
  induction fuel with
  | zero => intro n ds h; simpa [Nat.toDigitsCore] using h
  | succ fuel ih =>
    intro n ds h
    unfold Nat.toDigitsCore
    simp only
    have hd : (Nat.digitChar (n % 10)).isDigit = true :=
      isDigit_digitChar _ (Nat.mod_lt _ (by decide))
    have hcons : ∀ c ∈ Nat.digitChar (n % 10) :: ds, c.isDigit = true := by
      intro c hc
      rcases List.mem_cons.1 hc with rfl | hc
      · exact hd
      · exact h c hc
    split_ifs
    · exact hcons
    · exact ih _ _ hcons

theorem isDigit_digits (n : Nat) : ∀ c ∈ digits n, c.isDigit = true :=
  isDigit_toDigitsCore (n + 1) n [] (by simp)

theorem digits_ne_nil (n : Nat) : digits n ≠ [] := by
  intro h
  have hlen : (Nat.toDigitsCore 10 (n + 1) n []).length = 0 := by
    have : digits n = Nat.toDigitsCore 10 (n + 1) n [] := rfl
    rw [← this, h]; rfl
  unfold Nat.toDigitsCore at hlen
  simp only at hlen
  split_ifs at hlen
  · simp at hlen
  · rw [Nat.toDigitsCore_lens_eq] at hlen
    omega

theorem char_eq_ofNat {c : Char} {n : Nat} (h : c.toNat = n) : c = Char.ofNat n := by
  rw [← h, Char.ofNat_toNat]

theorem jsonUnescapeChar_control :
    ∀ n, n < 32 → n ≠ 8 → n ≠ 9 → n ≠ 10 → n ≠ 12 → n ≠ 13 → ∀ r : Text,
      jsonUnescapeChar ([Char.ofNat 92, 'u', '0', '0'] ++ (if n < 16 then ['0'] else []) ++
        Nat.toDigits 16 n ++ r) = some (Char.ofNat n, r) := by
  intro n hn h8 h9 h10 h12 h13 r
  interval_cases n <;> first | (exfalso; omega) | rfl

/-- Reading one character back from its rendering. -/
theorem jsonUnescapeChar_escape (c : Char) (r : Text) :
    jsonUnescapeChar (jsonEscapeChar c ++ r) = some (c, r) := by
  unfold jsonEscapeChar
  simp only [beq_iff_eq]
  split_ifs with h34 h92 h8 h9 h10 h12 h13 hlt h16
  · rw [char_eq_ofNat h34]; rfl
  · rw [char_eq_ofNat h92]; rfl
  · rw [char_eq_ofNat h8]; rfl
  · rw [char_eq_ofNat h9]; rfl
  · rw [char_eq_ofNat h10]; rfl
  · rw [char_eq_ofNat h12]; rfl
  · rw [char_eq_ofNat h13]; rfl
  · have := jsonUnescapeChar_control c.toNat hlt h8 h9 h10 h12 h13 r
    rw [if_pos h16, Char.ofNat_toNat] at this
    exact this
  · have := jsonUnescapeChar_control c.toNat hlt h8 h9 h10 h12 h13 r
    rw [if_neg h16, Char.ofNat_toNat] at this
    exact this
  · show jsonUnescapeChar (c :: r) = some (c, r)
    simp only [jsonUnescapeChar, h34, h92, if_false]

theorem jsonUnescapeChar_quote (r : Text) : jsonUnescapeChar (Char.ofNat 34 :: r) = none := rfl

/-- The body of a quoted string, up to its closing quote, determines the
string and what follows the quote. -/
theorem escape_body_inj :
    ∀ (s1 s2 r1 r2 : Text),
      (s1.map jsonEscapeChar).flatten ++ Char.ofNat 34 :: r1 =
        (s2.map jsonEscapeChar).flatten ++ Char.ofNat 34 :: r2 →
      s1 = s2 ∧ r1 = r2
  | [], [], r1, r2, h => by
    simp only [List.map_nil, List.flatten_nil, List.nil_append, List.cons.injEq, true_and] at h
    exact ⟨rfl, h⟩
  | [], d :: s2, r1, r2, h => by
    exfalso
    have := congrArg jsonUnescapeChar h
    simp only [List.map_nil, List.flatten_nil, List.nil_append, List.map_cons,
      List.flatten_cons, List.append_assoc] at this
    rw [jsonUnescapeChar_quote, jsonUnescapeChar_escape] at this
    cases this
  | c :: s1, [], r1, r2, h => by
    exfalso
    have := congrArg jsonUnescapeChar h
    simp only [List.map_nil, List.flatten_nil, List.nil_append, List.map_cons,
      List.flatten_cons, List.append_assoc] at this
    rw [jsonUnescapeChar_quote, jsonUnescapeChar_escape] at this
    cases this
  | c :: s1, d :: s2, r1, r2, h => by
    have := congrArg jsonUnescapeChar h
    simp only [List.map_cons, List.flatten_cons, List.append_assoc] at this
    rw [jsonUnescapeChar_escape, jsonUnescapeChar_escape] at this
    simp only [Option.some.injEq, Prod.mk.injEq] at this
    obtain ⟨rfl, hrest⟩ := this
    obtain ⟨rfl, hr⟩ := escape_body_inj s1 s2 r1 r2 hrest
    exact ⟨rfl, hr⟩

theorem jsonQuote_append_inj (s1 s2 r1 r2 : Text)
    (h : jsonQuote s1 ++ r1 = jsonQuote s2 ++ r2) : s1 = s2 ∧ r1 = r2 := by
  unfold jsonQuote at h
  simp only [List.singleton_append, List.cons_append, List.append_assoc, List.cons.injEq,
    true_and, List.nil_append] at h
  exact escape_body_inj s1 s2 r1 r2 h

theorem append_inj_of_class (p : Char → Bool) :
    ∀ (l1 l2 r1 r2 : Text), (∀ c ∈ l1, p c = true) → (∀ c ∈ l2, p c = true) →
      (∀ c, r1.head? = some c → p c = false) → (∀ c, r2.head? = some c → p c = false) →
      l1 ++ r1 = l2 ++ r2 → l1 = l2 ∧ r1 = r2
  | [], [], r1, r2, _, _, _, _, h => ⟨rfl, h⟩
  | [], d :: l2, r1, r2, _, h2, k1, _, h => by
    exfalso
    have hd := h2 d (List.mem_cons_self _ _)
    have := k1 d (by rw [List.nil_append] at h; rw [h]; rfl)
    rw [hd] at this
    cases this
  | c :: l1, [], r1, r2, h1, _, _, k2, h => by
    exfalso
    have hc := h1 c (List.mem_cons_self _ _)
    have := k2 c (by rw [List.nil_append] at h; rw [← h]; rfl)
    rw [hc] at this
    cases this
  | c :: l1, d :: l2, r1, r2, h1, h2, k1, k2, h => by
    simp only [List.cons_append, List.cons.injEq] at h
    obtain ⟨rfl, hrest⟩ := h
    obtain ⟨rfl, hr⟩ := append_inj_of_class p l1 l2 r1 r2
      (fun x hx => h1 x (List.mem_cons_of_mem _ hx))
      (fun x hx => h2 x (List.mem_cons_of_mem _ hx)) k1 k2 hrest
    exact ⟨rfl, hr⟩

theorem AfterValue.not_digit {r : Text} (h : AfterValue r) :
    ∀ c, r.head? = some c → c.isDigit = false := by
  obtain ⟨d, t, rfl, hd⟩ := h
  intro c hc
  simp only [List.head?_cons, Option.some.injEq] at hc
  subst hc
  rcases hd with rfl | rfl <;> decide

theorem digits_append_inj (a b : Nat) (r1 r2 : Text) (h1 : AfterValue r1)
    (h2 : AfterValue r2) (h : digits a ++ r1 = digits b ++ r2) : a = b ∧ r1 = r2 := by
  obtain ⟨hd, hr⟩ := append_inj_of_class Char.isDigit (digits a) (digits b) r1 r2
    (isDigit_digits a) (isDigit_digits b) h1.not_digit h2.not_digit h
  exact ⟨digits_injective hd, hr⟩

theorem digits_head (n : Nat) : ∃ c t, digits n = c :: t ∧ c.isDigit = true := by
  cases h : digits n with
  | nil => exact absurd h (digits_ne_nil n)
  | cons c t =>
    exact ⟨c, t, rfl, isDigit_digits n c (by rw [h]; exact List.mem_cons_self _ _)⟩

/-- The first character of a rendered value tells its kind. -/
theorem render_head (v : Json) (r : Text) :
    ∃ c t, v.render ++ r = c :: t ∧
      (match v with
        | .null => c = 'n'
        | .num _ => c.isDigit = true
        | .str _ => c = Char.ofNat 34
        | .nonFinite _ => c = 'n') := by
  cases v with
  | null => exact ⟨'n', _, rfl, rfl⟩
  | num n =>
    obtain ⟨c, t, hct, hc⟩ := digits_head n
    exact ⟨c, t ++ r, by simp [Json.render, hct], hc⟩
  | str s => exact ⟨Char.ofNat 34, _, rfl, rfl⟩
  | nonFinite b => exact ⟨'n', _, rfl, rfl⟩

/-- A rendered plain value, followed by a comma or a brace, determines the
value and what follows. -/
theorem render_append_inj (v1 v2 : Json) (r1 r2 : Text) (p1 : v1.Plain) (p2 : v2.Plain)
    (h1 : AfterValue r1) (h2 : AfterValue r2) (h : v1.render ++ r1 = v2.render ++ r2) :
    v1 = v2 ∧ r1 = r2 := by
  obtain ⟨c1, t1, e1, k1⟩ := render_head v1 r1
  obtain ⟨c2, t2, e2, k2⟩ := render_head v2 r2
  have hc : c1 = c2 := by
    have := e1.symm.trans (h.trans e2)
    simp only [List.cons.injEq] at this
    exact this.1
  subst hc
  cases v1 with
  | nonFinite b => exact absurd p1 (by simp [Json.Plain])
  | null =>
    cases v2 with
    | nonFinite b => exact absurd p2 (by simp [Json.Plain])
    | null => exact ⟨rfl, List.append_cancel_left h⟩
    | num n => exfalso; simp only at k1 k2; subst k1; revert k2; decide
    | str s => exfalso; simp only at k1 k2; subst k1; revert k2; decide
  | num n =>
    cases v2 with
    | nonFinite b => exact absurd p2 (by simp [Json.Plain])
    | null => exfalso; simp only at k1 k2; subst k2; revert k1; decide
    | num m =>
      obtain ⟨rfl, hr⟩ := digits_append_inj _ _ r1 r2 h1 h2 h
      exact ⟨rfl, hr⟩
    | str s => exfalso; simp only at k1 k2; subst k2; revert k1; decide
  | str s =>
    cases v2 with
    | nonFinite b => exact absurd p2 (by simp [Json.Plain])
    | null => exfalso; simp only at k1 k2; subst k1; revert k2; decide
    | num m => exfalso; simp only at k1 k2; subst k1; revert k2; decide
    | str s2 =>
      obtain ⟨rfl, hr⟩ := jsonQuote_append_inj _ _ r1 r2 h
      exact ⟨rfl, hr⟩

theorem renderMembers_cons_append (k : Text) (v : Json) (rest : List (Text × Json))
    (z : Text) :
    renderMembers ((k, v) :: rest) ++ z =
      jsonQuote k ++ (':' :: (v.render ++ membersTail rest z)) := by
  cases rest with
  | nil => simp [renderMembers, membersTail]
  | cons m ms => simp [renderMembers, membersTail]

theorem jsonQuote_head (k r : Text) : ∃ t, jsonQuote k ++ r = Char.ofNat 34 :: t :=
  ⟨_, rfl⟩

theorem membersTail_afterValue (rest : List (Text × Json)) (r : Text) :
    AfterValue (membersTail rest (Char.ofNat 125 :: r)) := by
  cases rest with
  | nil => exact ⟨_, _, rfl, Or.inr rfl⟩
  | cons m ms => exact ⟨_, _, rfl, Or.inl rfl⟩

/-- The members of a plain record, up to the closing brace, determine the
record. -/
theorem renderMembers_inj :
    ∀ (d1 d2 : List (Text × Json)) (r1 r2 : Text), PlainRecord d1 → PlainRecord d2 →
      renderMembers d1 ++ Char.ofNat 125 :: r1 = renderMembers d2 ++ Char.ofNat 125 :: r2 →
      d1 = d2 ∧ r1 = r2
  | [], [], r1, r2, _, _, h => by
    simp only [renderMembers, List.nil_append, List.cons.injEq, true_and] at h
    exact ⟨rfl, h⟩
  | [], (k, v) :: rest, r1, r2, _, _, h => by
    exfalso
    rw [renderMembers_cons_append] at h
    obtain ⟨t, ht⟩ := jsonQuote_head k (':' :: (v.render ++
      membersTail rest (Char.ofNat 125 :: r2)))
    rw [ht] at h
    simp only [renderMembers, List.nil_append, List.cons.injEq] at h
    exact absurd h.1 (by decide)
  | (k, v) :: rest, [], r1, r2, _, _, h => by
    exfalso
    rw [renderMembers_cons_append] at h
    obtain ⟨t, ht⟩ := jsonQuote_head k (':' :: (v.render ++
      membersTail rest (Char.ofNat 125 :: r1)))
    rw [ht] at h
    simp only [renderMembers, List.nil_append, List.cons.injEq] at h
    exact absurd h.1 (by decide)
  | (k1, v1) :: t1, (k2, v2) :: t2, r1, r2, p1, p2, h => by
    rw [renderMembers_cons_append, renderMembers_cons_append] at h
    obtain ⟨hk, hq⟩ := jsonQuote_append_inj _ _ _ _ h
    subst hk
    have hv := (List.cons_eq_cons.1 hq).2
    obtain ⟨hvv, ht⟩ := render_append_inj v1 v2 _ _
      (p1 (k1, v1) (List.mem_cons_self _ _)) (p2 (k1, v2) (List.mem_cons_self _ _))
      (membersTail_afterValue t1 r1) (membersTail_afterValue t2 r2) hv
    subst hvv
    have q1 : PlainRecord t1 := fun m hm => p1 m (List.mem_cons_of_mem _ hm)
    have q2 : PlainRecord t2 := fun m hm => p2 m (List.mem_cons_of_mem _ hm)
    match t1, t2, ht, q1, q2 with
    | [], [], ht, _, _ =>
      simp only [membersTail, List.cons.injEq, true_and] at ht
      exact ⟨rfl, ht⟩
    | [], _ :: _, ht, _, _ =>
      simp only [membersTail, List.cons.injEq] at ht
      exact absurd ht.1 (by decide)
    | _ :: _, [], ht, _, _ =>
      simp only [membersTail, List.cons.injEq] at ht
      exact absurd ht.1 (by decide)
    | m1 :: ms1, m2 :: ms2, ht, q1, q2 =>
      simp only [membersTail, List.cons.injEq, true_and] at ht
      obtain ⟨hd, hr⟩ := renderMembers_inj (m1 :: ms1) (m2 :: ms2) r1 r2 q1 q2 ht
      rw [hd]
      exact ⟨rfl, hr⟩

/-- The text that is digested determines a plain record. -/
theorem stringify_injective_plain (d1 d2 : List (Text × Json)) (p1 : PlainRecord d1)
    (p2 : PlainRecord d2) (h : stringify d1 = stringify d2) : d1 = d2 := by
  unfold stringify at h
  simp only [List.singleton_append, List.cons_append, List.cons.injEq, true_and] at h
  exact (renderMembers_inj d1 d2 [] [] p1 p2 h).1

/-! ## Claims on the status rule -/

/-- C6, as the code has it: the rule assigns upcoming when now < start, active
when start ≤ now < end, and completed when start ≤ now and end ≤ now (the first
`WHEN` that holds wins, so end ≤ now < start gives upcoming); when start ≤ end
this is completed whenever now ≥ end, and exactly one of the three cases of
the specification applies.  Always some `WHEN` holds: the `ELSE` arm is never
taken and the result does not depend on the stored status. -/
theorem statusCase_first_match (now start_date end_date : Nat) (stored : Status) :
    (now < start_date → statusCase now start_date end_date stored = .upcoming) ∧
    (start_date ≤ now ∧ now < end_date →
      statusCase now start_date end_date stored = .active) ∧
    (start_date ≤ now ∧ end_date ≤ now →
      statusCase now start_date end_date stored = .completed) ∧
    (start_date ≤ end_date → end_date ≤ now →
      statusCase now start_date end_date stored = .completed) ∧
    (start_date ≤ end_date →
      (now < start_date ∧ ¬ (start_date ≤ now ∧ now < end_date) ∧ ¬ end_date ≤ now) ∨
      (¬ now < start_date ∧ (start_date ≤ now ∧ now < end_date) ∧ ¬ end_date ≤ now) ∨
      (¬ now < start_date ∧ ¬ (start_date ≤ now ∧ now < end_date) ∧ end_date ≤ now)) ∧
    caseArm now start_date end_date ≠ .elseKeep ∧
    (∀ other : Status, statusCase now start_date end_date other =
      statusCase now start_date end_date stored) := by
  refine ⟨?_, ?_, ?_, ?_, ?_, caseArm_ne_else _ _ _, ?_⟩
  · intro h; simp [statusCase, caseArm, h]
  · intro h
    exact (statusCase_eq_active_iff _ _ _ _).2 h
  · intro h
    have h1 : ¬ start_date > now := by omega
    have h2 : ¬ (end_date > now) := by omega
    simp [statusCase, caseArm, h1, h2, h.2]
  · intro h h'
    have h1 : ¬ start_date > now := by omega
    have h2 : ¬ (end_date > now) := by omega
    simp [statusCase, caseArm, h1, h2, h']
  · intro h; omega
  · intro other
    have := caseArm_ne_else now start_date end_date
    unfold statusCase
    cases h : caseArm now start_date end_date <;> simp_all

/-- C6, witness: the three phases of an election from 200 to 300, and the
window being well formed. -/
theorem statusCase_first_match_witness :
    statusCase 100 200 300 .completed = .upcoming ∧
    statusCase 250 200 300 .upcoming = .active ∧
    statusCase 300 200 300 .upcoming = .completed ∧
    statusCase 999 200 300 .active = .completed :=
  ⟨(statusCase_first_match 100 200 300 .completed).1 (by decide),
   (statusCase_first_match 250 200 300 .upcoming).2.1 (by decide),
   (statusCase_first_match 300 200 300 .upcoming).2.2.1 (by decide),
   (statusCase_first_match 999 200 300 .active).2.2.2.1 (by decide) (by decide)⟩

/-- C6, counterexample: with start = 10 and end = 5, at now = 7 both now < start
and now ≥ end hold, and the rule assigns upcoming, not completed. -/
theorem statusCase_end_before_start :
    7 ≥ 5 ∧ 7 < 10 ∧ statusCase 7 10 5 .active = .upcoming ∧
      statusCase 7 10 5 .active ≠ .completed := by decide

/-- C7: for fixed start and end and times now1 ≤ now2, the status assigned at
now2 is not earlier than the one assigned at now1 in the order upcoming <
active < completed, whatever statuses were stored. -/
theorem statusCase_monotone (start_date end_date now1 now2 : Nat) (stored1 stored2 : Status)
    (h : now1 ≤ now2) :
    (statusCase now1 start_date end_date stored1).rank ≤
      (statusCase now2 start_date end_date stored2).rank := by
  unfold statusCase caseArm
  split_ifs <;> simp [Status.rank] <;> omega

/-- C7, witness: an election from 100 to 200 seen at 150 and at 250. -/
theorem statusCase_monotone_witness :
    (statusCase 150 100 200 .upcoming).rank ≤ (statusCase 250 100 200 .upcoming).rank :=
  statusCase_monotone 100 200 150 250 .upcoming .upcoming (by decide)

/-! ## Claims on casting a vote -/

/-- C1: In every store reachable from the empty store by any sequence of
requests (registrations, createElection, castVote, the status refreshes,
deleteElection, deleteVoter), every pair `(electionId, voterId)` has at most one
vote row. -/
theorem at_most_one_vote_per_voter (sha256 : Text → Text) (s : Store)
    (h : Reachable sha256 s) (electionId voterId : Nat) :
    (s.votes.filter fun v => v.election_id = electionId ∧ v.voter_id = voterId).length ≤ 1 := by
  have hpw := (reachable_consistent sha256 h).uniqueVote
  have hsub : (s.votes.filter fun v => v.election_id = electionId ∧ v.voter_id = voterId).Pairwise
      fun a b => ¬ (a.election_id = b.election_id ∧ a.voter_id = b.voter_id) :=
    hpw.sublist (List.filter_sublist _)
  have hall : ∀ v ∈ (s.votes.filter fun v => v.election_id = electionId ∧ v.voter_id = voterId),
      v.election_id = electionId ∧ v.voter_id = voterId := by
    intro v hv
    simpa using (List.mem_filter.1 hv).2
  generalize (s.votes.filter fun v => v.election_id = electionId ∧ v.voter_id = voterId) = l
    at hsub hall
  match l, hsub, hall with
  | [], _, _ => simp
  | [_], _, _ => simp
  | a :: b :: rest, hsub, hall =>
    exfalso
    have ha := hall a (by simp)
    have hb := hall b (by simp)
    exact (List.pairwise_cons.1 hsub).1 b (by simp) ⟨ha.1.trans hb.1.symm, ha.2.trans hb.2.symm⟩

/-- C1, witness: the store after both sample votes is reachable, and voter V1 has one
vote in election 1. -/
theorem at_most_one_vote_per_voter_witness :
    Reachable demoDigest demoCross ∧
    (demoCross.votes.filter fun v => v.election_id = 1 ∧ v.voter_id = 2).length ≤ 1 :=
  ⟨reachable_run demoDigest demoCrossRequests Reachable.init,
   at_most_one_vote_per_voter demoDigest demoCross
     (reachable_run demoDigest demoCrossRequests Reachable.init) 1 2⟩

/-- C2, as the code has it: A castVote request (both ids present) by a
voter who already has a vote in that election never changes the vote rows; it
is answered `DuplicateVote` when the election is in its voting window (start ≤
now < end) and `ElectionNotActive` otherwise, the active check coming first. -/
theorem castVote_repeat_rejected (sha256 : Text → Text) (s : Store) (h : Reachable sha256 s)
    (now : Nat) (user : AuthUser) (electionId candidateId : Nat) (oracle : Oracle)
    (timestamp : Nat) (hrole : user.role = .voter) (he : electionId ≠ 0)
    (hc : candidateId ≠ 0)
    (hprior : ∃ v ∈ s.votes, v.election_id = electionId ∧ v.voter_id = user.userId) :
    (castVote sha256 s now user electionId candidateId oracle timestamp).1.votes = s.votes ∧
    ((∃ el ∈ s.elections, el.id = electionId ∧ el.start_date ≤ now ∧ now < el.end_date) →
      (castVote sha256 s now user electionId candidateId oracle timestamp).2.outcome
        = .duplicateVote) ∧
    ((¬ ∃ el ∈ s.elections, el.id = electionId ∧ el.start_date ≤ now ∧ now < el.end_date) →
      (castVote sha256 s now user electionId candidateId oracle timestamp).2.outcome
        = .electionNotActive) := by
  have hs := reachable_consistent sha256 h
  rw [castVote_eq sha256 s now user electionId candidateId oracle timestamp hrole he hc]
  obtain ⟨v, hv, hve, _⟩ := hprior
  have hmem := hs.voteElection v hv
  simp only [Store.electionIds, List.mem_map] at hmem
  obtain ⟨el, hel, hid⟩ := hmem
  have hid' : el.id = electionId := hid.trans hve
  have hlook := election_lookup hs hel
  rw [hid'] at hlook
  rw [hlook]
  simp only
  have hprior' : ∃ v ∈ s.votes, v.election_id = electionId ∧ v.voter_id = user.userId :=
    ⟨v, hv, hve, by assumption⟩
  by_cases hwin : el.start_date ≤ now ∧ now < el.end_date
  · simp only [hwin, and_self, if_true, hprior']
    refine ⟨rfl, fun _ => rfl, fun hno => ?_⟩
    exact absurd ⟨el, hel, hid', hwin.1, hwin.2⟩ hno
  · simp only [hwin, if_false]
    refine ⟨rfl, fun hyes => ?_, fun _ => rfl⟩
    obtain ⟨el2, hel2, hid2, hw⟩ := hyes
    have h2 := election_lookup hs hel2
    rw [hid2, hlook] at h2
    simp only [List.cons.injEq, and_true] at h2
    subst h2
    exact absurd hw hwin

/-- C2, witness: V1, who voted for Alice, asks again at `T + 2` for Bob. -/
theorem castVote_repeat_rejected_witness :
    (castVote demoDigest demoVoted 1002 demoV1 1 2 .absent 1002000).1.votes = demoVoted.votes ∧
    (castVote demoDigest demoVoted 1002 demoV1 1 2 .absent 1002000).2.outcome = .duplicateVote :=
  have h := castVote_repeat_rejected demoDigest demoVoted
    (reachable_run demoDigest demoVoteRequests Reachable.init) 1002 demoV1 1 2 .absent 1002000
    (by decide) (by decide) (by decide) (by decide)
  ⟨h.1, h.2.1 (by decide)⟩

/-- C2, counterexample: Voter V1 has voted in election 1; a second request
after the election's end is answered `ElectionNotActive`, not `DuplicateVote`. -/
theorem castVote_repeat_after_end :
    (∃ v ∈ demoVoted.votes, v.election_id = 1 ∧ v.voter_id = demoV1.userId) ∧
    demoV1.role = .voter ∧
    (castVote demoDigest demoVoted 4601 demoV1 1 2 .absent 4601000).2 = .electionNotActive ∧
    (castVote demoDigest demoVoted 4601 demoV1 1 2 .absent 4601000).2.outcome
      ≠ .duplicateVote := by decide

/-- C3, as the code has it: When the duplicate pre-check of a castVote
request passed and the insert then meets a vote of the same voter in the same
election (committed in between), the insert is refused by `unique_vote`, no
row is added, and the `catch` answers the generic 500 'Internal server error',
which is not the `DuplicateVote` outcome of the pre-check. -/
theorem castVote_race_generic_failure (sha256 : Text → Text) (later : Store → Store)
    (s : Store) (now : Nat) (user : AuthUser) (electionId candidateId : Nat)
    (oracle : Oracle) (timestamp : Nat)
    (hpass : (castVoteChecks s now user electionId candidateId).2 = none)
    (hdup : ∃ v ∈ (later (castVoteChecks s now user electionId candidateId).1).votes,
      v.election_id = electionId ∧ v.voter_id = user.userId) :
    (∀ blockchainHash voteHash : Text,
      insertVote (later (castVoteChecks s now user electionId candidateId).1) now electionId
        candidateId user.userId blockchainHash voteHash = .error .dupEntry) ∧
    castVoteInterleaved sha256 later s now user electionId candidateId oracle timestamp =
      (later (castVoteChecks s now user electionId candidateId).1, .internalServerError) ∧
    (castVoteInterleaved sha256 later s now user electionId candidateId oracle
      timestamp).2.outcome = .storageFailure ∧
    (castVoteInterleaved sha256 later s now user electionId candidateId oracle
      timestamp).2.outcome ≠ .duplicateVote := by
  have hins : ∀ blockchainHash voteHash : Text,
      insertVote (later (castVoteChecks s now user electionId candidateId).1) now electionId
        candidateId user.userId blockchainHash voteHash = .error .dupEntry := by
    intro bh vh
    unfold insertVote
    rw [if_pos hdup]
  have hres : castVoteInterleaved sha256 later s now user electionId candidateId oracle
      timestamp =
      (later (castVoteChecks s now user electionId candidateId).1, .internalServerError) := by
    unfold castVoteInterleaved
    rcases hck : castVoteChecks s now user electionId candidateId with ⟨s1, r⟩
    rw [hck] at hpass hins
    simp only at hpass hins
    subst hpass
    simp only [castVoteInsert, hins]
  refine ⟨hins, hres, ?_, ?_⟩
  · rw [hres]; rfl
  · rw [hres]; intro hcontra; cases hcontra

/-- C3, witness: V1's second request passes the pre-check before the first one
commits, and inserts after it. -/
theorem castVote_race_generic_failure_witness :
    (castVoteChecks demoSetup 1001 demoV1 1 2).2 = none ∧
    (castVoteInterleaved demoDigest demoOtherRequest demoSetup 1001 demoV1 1 2 .absent
      1001001).2 = .internalServerError :=
  have h := castVote_race_generic_failure demoDigest demoOtherRequest demoSetup 1001 demoV1
    1 2 .absent 1001001 (by decide) (by decide)
  ⟨by decide, congrArg Prod.snd h.2.1⟩

/-- C3, counterexample: Two requests of voter V1 for election 1 both pass
the pre-check on the same store; the first commits its vote, the second's
insert is refused by `unique_vote` and answered with the generic failure,
while the pre-check on the store it met answers `DuplicateVote`. -/
theorem castVote_race_not_duplicateVote :
    (castVoteChecks demoSetup 1001 demoV1 1 2).2 = none ∧
    insertVote (demoOtherRequest (castVoteChecks demoSetup 1001 demoV1 1 2).1) 1001 1 2
      demoV1.userId [] [] = .error .dupEntry ∧
    (castVoteInterleaved demoDigest demoOtherRequest demoSetup 1001 demoV1 1 2 .absent
      1001001).2.outcome ≠ .duplicateVote ∧
    (castVote demoDigest (demoOtherRequest demoSetup) 1001 demoV1 1 2 .absent
      1001001).2.outcome = .duplicateVote :=
  ⟨by decide, rfl, by decide, by decide⟩

/-- C4: For a castVote request by a voter with both ids present: if no
election has the id, or the election's row has now < start or now ≥ end
(whatever status it stores), the answer is `ElectionNotActive` and the vote
rows are unchanged; and a request that succeeds found the election with
start ≤ now < end. -/
theorem castVote_requires_window (sha256 : Text → Text) (s : Store) (h : Reachable sha256 s)
    (now : Nat) (user : AuthUser) (electionId candidateId : Nat) (oracle : Oracle)
    (timestamp : Nat) (hrole : user.role = .voter) (he : electionId ≠ 0)
    (hc : candidateId ≠ 0) :
    ((∀ el ∈ s.elections, el.id ≠ electionId) →
      (castVote sha256 s now user electionId candidateId oracle timestamp).2
        = .electionNotActive ∧
      (castVote sha256 s now user electionId candidateId oracle timestamp).1.votes = s.votes) ∧
    (∀ el ∈ s.elections, el.id = electionId → now < el.start_date ∨ el.end_date ≤ now →
      (castVote sha256 s now user electionId candidateId oracle timestamp).2
        = .electionNotActive ∧
      (castVote sha256 s now user electionId candidateId oracle timestamp).1.votes = s.votes) ∧
    ((castVote sha256 s now user electionId candidateId oracle timestamp).2.outcome = .success →
      ∃ el ∈ s.elections, el.id = electionId ∧ el.start_date ≤ now ∧ now < el.end_date) := by
  have hs := reachable_consistent sha256 h
  rw [castVote_eq sha256 s now user electionId candidateId oracle timestamp hrole he hc]
  refine ⟨?_, ?_, ?_⟩
  · intro hnone
    rw [election_lookup_none hnone]
    exact ⟨rfl, rfl⟩
  · intro el hel hid hout
    have hlook := election_lookup hs hel
    rw [hid] at hlook
    rw [hlook]
    have hwin : ¬ (el.start_date ≤ now ∧ now < el.end_date) := by omega
    simp only [hwin, if_false]
    exact ⟨trivial, rfl⟩
  · cases hfl : s.elections.filter (fun x => x.id = electionId) with
    | nil => intro hsucc; cases hsucc
    | cons el rest =>
      have hmem : el ∈ s.elections.filter (fun x => x.id = electionId) := by
        rw [hfl]; exact List.mem_cons_self _ _
      rw [List.mem_filter] at hmem
      simp only
      split_ifs with hwin hex
      · intro hsucc; cases hsucc
      · intro _
        exact ⟨el, hmem.1, by simpa using hmem.2, hwin.1, hwin.2⟩
      · intro hsucc; cases hsucc

/-- C4, witness: V2 asks after the end, before the start, for an election that
does not exist, and inside the window. -/
theorem castVote_requires_window_witness :
    (castVote demoDigest demoVoted 4601 demoV2 1 1 .absent 4601000).2 = .electionNotActive ∧
    (castVote demoDigest demoVoted 4601 demoV2 1 1 .absent 4601000).1.votes = demoVoted.votes ∧
    (castVote demoDigest demoVoted 999 demoV2 1 1 .absent 999000).2 = .electionNotActive ∧
    (castVote demoDigest demoVoted 1002 demoV2 9 1 .absent 1002000).2 = .electionNotActive ∧
    ∃ el ∈ demoVoted.elections, el.id = 1 ∧ el.start_date ≤ 1002 ∧ 1002 < el.end_date :=
  have hr := reachable_run demoDigest demoVoteRequests Reachable.init
  have h1 := castVote_requires_window demoDigest demoVoted hr 4601 demoV2 1 1 .absent 4601000
    (by decide) (by decide) (by decide)
  have h2 := castVote_requires_window demoDigest demoVoted hr 999 demoV2 1 1 .absent 999000
    (by decide) (by decide) (by decide)
  have h3 := castVote_requires_window demoDigest demoVoted hr 1002 demoV2 9 1 .absent 1002000
    (by decide) (by decide) (by decide)
  have h4 := castVote_requires_window demoDigest demoVoted hr 1002 demoV2 1 1 .absent 1002000
    (by decide) (by decide) (by decide)
  ⟨(h1.2.1 (demoVoted.elections.get ⟨0, by decide⟩) (by decide) (by decide) (by decide)).1,
   (h1.2.1 (demoVoted.elections.get ⟨0, by decide⟩) (by decide) (by decide) (by decide)).2,
   (h2.2.1 (demoVoted.elections.get ⟨0, by decide⟩) (by decide) (by decide) (by decide)).1,
   (h3.1 (by decide)).1,
   h4.2.2 (by decide)⟩

/-! ## Claims on the candidate of a vote -/

/-- C5, as the code has it: Every recorded vote names an existing candidate
row (the foreign key on `candidate_id`); and a castVote request on an active
election by a voter with no prior vote in it, naming a `candidateId` that no
candidate row has, fails with the generic 500 and records no vote.  The handler
never compares the candidate's election with `electionId`. -/
theorem castVote_candidate_must_exist (sha256 : Text → Text) (s : Store)
    (h : Reachable sha256 s) :
    (∀ v ∈ s.votes, ∃ cand ∈ s.candidates, cand.id = v.candidate_id) ∧
    ∀ (now : Nat) (user : AuthUser) (electionId candidateId : Nat) (oracle : Oracle)
      (timestamp : Nat),
      user.role = .voter → electionId ≠ 0 → candidateId ≠ 0 →
      (∃ el ∈ s.elections, el.id = electionId ∧ el.start_date ≤ now ∧ now < el.end_date) →
      (¬ ∃ v ∈ s.votes, v.election_id = electionId ∧ v.voter_id = user.userId) →
      (∀ cand ∈ s.candidates, cand.id ≠ candidateId) →
      (castVote sha256 s now user electionId candidateId oracle timestamp).2
        = .internalServerError ∧
      (castVote sha256 s now user electionId candidateId oracle timestamp).1.votes
        = s.votes := by
  have hs := reachable_consistent sha256 h
  refine ⟨?_, ?_⟩
  · intro v hv
    have := hs.voteCandidate v hv
    simp only [Store.candidateIds, List.mem_map] at this
    exact this
  · intro now user e c oracle ts hrole he hc hact hnp hnc
    rw [castVote_eq sha256 s now user e c oracle ts hrole he hc]
    obtain ⟨el, hel, hid, hwin⟩ := hact
    have hlook := election_lookup hs hel
    rw [hid] at hlook
    rw [hlook]
    simp only [hwin, and_self, if_true, hnp, if_false]
    have hins : ∀ bh vh, insertVote (updateStatusWhere s now e) now e c user.userId bh vh =
        .error .foreignKey := by
      intro bh vh
      unfold insertVote
      have h1 : ¬ ∃ v ∈ (updateStatusWhere s now e).votes,
          v.election_id = e ∧ v.voter_id = user.userId := hnp
      have h2 : ∃ x ∈ (updateStatusWhere s now e).elections, x.id = e := by
        have : e ∈ (updateStatusWhere s now e).electionIds := by
          rw [updateStatusWhere_electionIds]
          exact List.mem_map.2 ⟨el, hel, hid⟩
        simpa [Store.electionIds] using this
      have h3 : ¬ ∃ x ∈ (updateStatusWhere s now e).candidates, x.id = c := by
        rintro ⟨x, hx, hxc⟩
        exact hnc x hx hxc
      rw [if_neg h1, if_neg (not_not.2 h2), if_pos h3]
    simp only [castVoteInsert, hins]
    exact ⟨trivial, rfl⟩

/-- C5, witness: V2 names candidate 77, which no row has. -/
theorem castVote_candidate_must_exist_witness :
    (∀ v ∈ demoVoted.votes, ∃ cand ∈ demoVoted.candidates, cand.id = v.candidate_id) ∧
    (castVote demoDigest demoVoted 1002 demoV2 1 77 .absent 1002000).2 = .internalServerError ∧
    (castVote demoDigest demoVoted 1002 demoV2 1 77 .absent 1002000).1.votes = demoVoted.votes :=
  have h := castVote_candidate_must_exist demoDigest demoVoted
    (reachable_run demoDigest demoVoteRequests Reachable.init)
  ⟨h.1, h.2 1002 demoV2 1 77 .absent 1002000 (by decide) (by decide) (by decide) (by decide)
    (by decide) (by decide)⟩

/-- C5, counterexample: Election 1 is active and voter V2 has not voted in
it; candidate 3 belongs to election 2.  The request for election 1 naming
candidate 3 succeeds and the vote is recorded. -/
theorem castVote_accepts_foreign_candidate :
    (∃ el ∈ demoVoted.elections, el.id = 1 ∧ el.start_date ≤ 1002 ∧ 1002 < el.end_date) ∧
    (¬ ∃ v ∈ demoVoted.votes, v.election_id = 1 ∧ v.voter_id = demoV2.userId) ∧
    (∀ cand ∈ demoVoted.candidates, cand.id = 3 → cand.election_id = 2) ∧
    (castVote demoDigest demoVoted 1002 demoV2 1 3 .absent 1002000).2.outcome = .success ∧
    (castVote demoDigest demoVoted 1002 demoV2 1 3 .absent 1002000).2.outcome
      ≠ .invalidCandidate ∧
    (∃ v ∈ (castVote demoDigest demoVoted 1002 demoV2 1 3 .absent 1002000).1.votes,
      v.election_id = 1 ∧ v.candidate_id = 3 ∧ v.voter_id = demoV2.userId) := by
  decide

/-! ## Claims on creating an election -/

theorem invalidRequired_of_placeholder (o : Option Text) (h : PlaceholderOnly (o.getD [])) :
    invalidRequired o = true := by
  cases o with
  | none => rfl
  | some x =>
    have : stripDashSpace (trim x) = [] := by
      unfold stripDashSpace
      rw [List.filter_eq_nil_iff]
      intro ch hch
      rcases h ch hch with rfl | hw
      · simp
      · simp [hw]
    simp [invalidRequired, this]

theorem validateCandidates_of_bad_name :
    ∀ (cs : List CandidateInput), (∃ cand ∈ cs, invalidRequired cand.name = true) →
      ∃ r, validateCandidates cs = some r ∧ r.outcome = .validationError
  | [], h => by obtain ⟨_, hc, _⟩ := h; cases hc
  | c :: cs, h => by
    unfold validateCandidates
    split_ifs with h1 h2
    · exact ⟨_, rfl, rfl⟩
    · exact ⟨_, rfl, rfl⟩
    · apply validateCandidates_of_bad_name cs
      obtain ⟨cand, hc, hbad⟩ := h
      rcases List.mem_cons.1 hc with rfl | hc'
      · exact absurd hbad h1
      · exact ⟨cand, hc', hbad⟩

/-- C10: A createElection request by an admin whose title, after trimming,
is empty or only dashes and whitespace, or whose candidate list is empty, or
one of whose candidate names, after trimming, is empty or only dashes and
whitespace, is answered with a validation error and leaves the store as it
was. -/
theorem createElection_rejects_placeholders (sha256 : Text → Text) (s : Store) (now : Nat)
    (user : AuthUser) (body : ElectionBody) (oracle : Oracle)
    (hadmin : user.role = .admin)
    (hbad : PlaceholderOnly (body.title.getD []) ∨ body.candidates.getD [] = [] ∨
      ∃ cand ∈ body.candidates.getD [], PlaceholderOnly (cand.name.getD [])) :
    (createElection sha256 s now user body oracle).2.outcome = .validationError ∧
    (createElection sha256 s now user body oracle).2.httpStatus = 400 ∧
    (createElection sha256 s now user body oracle).1 = s := by
  unfold createElection
  simp only [hadmin, ne_eq, not_true_eq_false, if_false]
  split_ifs with h1 h2
  · exact ⟨rfl, rfl, rfl⟩
  · exact ⟨rfl, rfl, rfl⟩
  · split
    · next title sd ed c cs ht _ _ hcs =>
      have hex : ∃ cand ∈ c :: cs, invalidRequired cand.name = true := by
        rcases hbad with hb | hb | hb
        · exact absurd (invalidRequired_of_placeholder _ hb) h1
        · rw [hcs] at hb; cases hb
        · rw [hcs] at hb
          obtain ⟨cand, hc, hp⟩ := hb
          exact ⟨cand, hc, invalidRequired_of_placeholder _ hp⟩
      obtain ⟨r, hr, hro⟩ := validateCandidates_of_bad_name (c :: cs) hex
      rw [hr]
      refine ⟨hro, ?_, rfl⟩
      cases r <;> first | rfl | cases hro
    · exact ⟨rfl, rfl, rfl⟩

/-- C10, witness: the Mayor request with the title ` - `. -/
theorem createElection_rejects_placeholders_witness :
    PlaceholderOnly (demoDashTitle.title.getD [])
    ∧ (createElection demoDigest demoSetup 60 demoAdmin
        demoDashTitle .absent).2.outcome = .validationError
    ∧ (createElection demoDigest demoSetup 60 demoAdmin
        demoDashTitle .absent).1 = demoSetup :=
  have h := createElection_rejects_placeholders demoDigest demoSetup 60 demoAdmin
    demoDashTitle .absent (by decide) (Or.inl (by decide))
  ⟨by decide, h.1, h.2.2⟩

/-! ## The tally -/

theorem length_filter_cons_candidate (v : Vote) (vs : List Vote) (cid : Nat) :
    ((v :: vs).filter fun x => x.candidate_id = cid).length =
      (vs.filter fun x => x.candidate_id = cid).length +
        (if v.candidate_id = cid then 1 else 0) := by
  by_cases h : v.candidate_id = cid
  · simp [List.filter_cons, h]
  · simp [List.filter_cons, h]

theorem sum_counts_cons (cs : List Candidate) (v : Vote) (vs : List Vote) :
    (cs.map fun c => ((v :: vs).filter fun x => x.candidate_id = c.id).length).sum =
      (cs.map fun c => (vs.filter fun x => x.candidate_id = c.id).length).sum +
        (cs.filter fun c => c.id = v.candidate_id).length := by
  induction cs with
  | nil => rfl
  | cons c cs ih =>
    rw [List.map_cons, List.sum_cons, ih, List.map_cons, List.sum_cons,
      length_filter_cons_candidate]
    by_cases h : c.id = v.candidate_id
    · rw [List.filter_cons_of_pos (by simpa using h), if_pos h.symm, List.length_cons]
      omega
    · rw [List.filter_cons_of_neg (by simpa using h), if_neg (fun e => h e.symm)]
      omega

theorem candidate_lookup {s : Store} (hs : s.Consistent) {c : Candidate}
    (hc : c ∈ s.candidates) : s.candidates.filter (fun x => x.id = c.id) = [c] :=
  filter_key_eq_singleton (fun x : Candidate => x.id) s.candidates hs.candidateKey c hc

theorem owner_count {s : Store} (hs : s.Consistent) (e : Nat) (v : Vote)
    (hown : ∃ cand ∈ s.candidates, cand.id = v.candidate_id ∧ cand.election_id = v.election_id) :
    ((s.candidates.filter fun c => c.election_id = e).filter
        fun c => c.id = v.candidate_id).length = if v.election_id = e then 1 else 0 := by
  obtain ⟨c, hc, hcid, hce⟩ := hown
  have hlook := candidate_lookup hs hc
  rw [hcid] at hlook
  rw [List.filter_comm, hlook]
  by_cases h : v.election_id = e
  · have : c.election_id = e := hce.trans h
    simp [List.filter_cons, this, h]
  · have : ¬ c.election_id = e := fun h' => h (hce.symm.trans h')
    simp [List.filter_cons, this, h]

theorem sum_counts_eq_total {s : Store} (hs : s.Consistent) (e : Nat) :
    ∀ vs : List Vote,
      (∀ v ∈ vs, ∃ cand ∈ s.candidates,
        cand.id = v.candidate_id ∧ cand.election_id = v.election_id) →
      ((s.candidates.filter fun c => c.election_id = e).map
        fun c => (vs.filter fun x => x.candidate_id = c.id).length).sum =
      (vs.filter fun x => x.election_id = e).length
  | [], _ => by simp
  | v :: vs, h => by
    rw [sum_counts_cons, owner_count hs e v (h v (List.mem_cons_self _ _)),
      sum_counts_eq_total hs e vs (fun x hx => h x (List.mem_cons_of_mem _ hx))]
    by_cases hv : v.election_id = e
    · simp [List.filter_cons, hv]
    · simp [List.filter_cons, hv]

/-- C8, as the code has it: In a reachable store in which every vote names
a candidate of the vote's own election, the `vote_count` values reported for
an election's candidates add up to the election's `total_votes`. -/
theorem tally_sum_eq_total_votes (sha256 : Text → Text) (s : Store) (h : Reachable sha256 s)
    (hown : ∀ v ∈ s.votes, ∃ cand ∈ s.candidates,
      cand.id = v.candidate_id ∧ cand.election_id = v.election_id)
    (electionId : Nat) :
    ((candidateRows s electionId).map (·.vote_count)).sum = total_votes s electionId := by
  have hs := reachable_consistent sha256 h
  have := sum_counts_eq_total hs electionId s.votes hown
  simpa [candidateRows, total_votes, vote_count, List.map_map, Function.comp] using this

/-- C8, witness: after V1's vote for Alice every vote names a candidate of its own
election, and election 1 reports one vote both ways. -/
theorem tally_sum_eq_total_votes_witness :
    ((candidateRows demoVoted 1).map (·.vote_count)).sum = total_votes demoVoted 1 :=
  tally_sum_eq_total_votes demoDigest demoVoted
    (reachable_run demoDigest demoVoteRequests Reachable.init) (by decide) 1

/-- C8, counterexample: After V2's vote in election 1 for candidate 3 of
election 2, election 1 reports two votes in total while its candidates' counts
add up to one. -/
theorem tally_sum_misses_foreign_vote :
    ((candidateRows demoCross 1).map (·.vote_count)).sum = 1 ∧ total_votes demoCross 1 = 2 ∧
    ((candidateRows demoCross 2).map (·.vote_count)).sum = 1 ∧ total_votes demoCross 2 = 0 := by
  decide

/-! ## Claims on creating an election: dates, atomicity, anchoring -/

/-- C11, as the code has it: a createElection request by an admin in which the
start or the end timestamp is missing is answered with a validation error and
leaves the store as it was.  The two timestamps are never compared; an
election stored with end ≤ start is at no time active. -/
theorem createElection_requires_both_dates (sha256 : Text → Text) (s : Store) (now : Nat)
    (user : AuthUser) (body : ElectionBody) (oracle : Oracle)
    (hadmin : user.role = .admin)
    (hmissing : body.startDate = none ∨ body.endDate = none) :
    ((createElection sha256 s now user body oracle).2.outcome = .validationError ∧
      (createElection sha256 s now user body oracle).1 = s) ∧
    ∀ (start_date end_date at_ : Nat) (stored : Status), end_date ≤ start_date →
      statusCase at_ start_date end_date stored ≠ .active := by
  refine ⟨?_, ?_⟩
  · unfold createElection
    simp only [hadmin, ne_eq, not_true_eq_false, if_false]
    split_ifs
    · exact ⟨rfl, rfl⟩
    · exact ⟨rfl, rfl⟩
    · split
      · next title sd ed c cs _ hsd hed _ =>
        rcases hmissing with h | h
        · rw [h] at hsd; cases hsd
        · rw [h] at hed; cases hed
      · exact ⟨rfl, rfl⟩
  · intro start_date end_date at_ stored hle hact
    have := (statusCase_eq_active_iff at_ start_date end_date stored).1 hact
    omega

/-- C11, witness: the Mayor request without an end date. -/
theorem createElection_requires_both_dates_witness :
    (createElection demoDigest demoSetup 60 demoAdmin demoNoEnd .absent).2.outcome
      = .validationError ∧
    (createElection demoDigest demoSetup 60 demoAdmin demoNoEnd .absent).1 = demoSetup :=
  (createElection_requires_both_dates demoDigest demoSetup 60 demoAdmin demoNoEnd .absent
    (by decide) (Or.inr (by decide))).1

/-- C11, counterexample: the request with start 10 and end 5 succeeds and its
election row is stored with end before start. -/
theorem createElection_accepts_end_before_start :
    demoBackwards.startDate = some 10 ∧ demoBackwards.endDate = some 5 ∧
    (createElection demoDigest demoSetup 60 demoAdmin demoBackwards .absent).2.outcome
      = .success ∧
    (∃ el ∈ (createElection demoDigest demoSetup 60 demoAdmin demoBackwards .absent).1.elections,
      el.start_date = 10 ∧ el.end_date = 5) := by
  decide

/-- C12, as the code has it: when the election row of a createElection request
was inserted and the insertion of one of its candidates then fails, the request
is answered with the generic 500 and nothing is undone: the new election row
stays, and so do the rows of the request's candidates before the first one
the table refuses (the table is the earlier rows followed by exactly those);
users and votes are untouched.  The store is not the store before the
request. -/
theorem createElection_keeps_partial_rows (sha256 : Text → Text) (s : Store) (now : Nat)
    (user : AuthUser) (body : ElectionBody) (oracle : Oracle)
    (title : Text) (startDate endDate : Nat) (c : CandidateInput) (cs : List CandidateInput)
    (s1 : Store) (electionId : Nat)
    (hadmin : user.role = .admin) (ht : body.title = some title)
    (hvt : invalidRequired (some title) = false)
    (hvd : invalidOptional body.description = false)
    (hsd : body.startDate = some startDate) (hed : body.endDate = some endDate)
    (hcs : body.candidates = some (c :: cs))
    (hvc : validateCandidates (c :: cs) = none)
    (hrow : insertElection s now title body.description startDate endDate
      (generateBlockchainHash sha256
        (electionRecord title body.description startDate endDate user.userId))
      user.userId = .ok (s1, electionId))
    (hfail : (insertCandidates sha256 now electionId (c :: cs) s1).2 = false) :
    (createElection sha256 s now user body oracle).2 = .internalServerError ∧
    (createElection sha256 s now user body oracle).1.elections =
      s.elections ++
        [electionRow sha256 s now title body.description startDate endDate user.userId] ∧
    s.candidates <+: (createElection sha256 s now user body oracle).1.candidates ∧
    (createElection sha256 s now user body oracle).1.users = s.users ∧
    (createElection sha256 s now user body oracle).1.votes = s.votes ∧
    (createElection sha256 s now user body oracle).1 ≠ s ∧
    (createElection sha256 s now user body oracle).1.candidates =
      s.candidates ++ candidateRowsFrom sha256 now s.nextElectionId s.nextCandidateId
        ((c :: cs).takeWhile CandidateInput.fits) ∧
    (c :: cs).all CandidateInput.fits = false := by
  rw [createElection_validated sha256 s now user body oracle title startDate endDate c cs
    hadmin ht hvt hvd hsd hed hcs hvc, hrow]
  simp only
  obtain ⟨hid, rfl⟩ := insertElection_ok hrow
  subst hid
  obtain ⟨r1, r2⟩ := insertCandidates_rows sha256 now s.nextElectionId (c :: cs)
    { s with
      elections := s.elections ++ [{
        id := s.nextElectionId, title := title, description := body.description,
        start_date := startDate, end_date := endDate, status := .upcoming,
        blockchain_hash := generateBlockchainHash sha256
          (electionRecord title body.description startDate endDate user.userId),
        created_by := user.userId, created_at := now }],
      nextElectionId := s.nextElectionId + 1 }
    ⟨_, List.mem_append_right _ (List.mem_singleton_self _), rfl⟩
  obtain ⟨k1, k2, k3, k4⟩ := insertCandidates_frame sha256 now s.nextElectionId (c :: cs)
    { s with
      elections := s.elections ++ [{
        id := s.nextElectionId, title := title, description := body.description,
        start_date := startDate, end_date := endDate, status := .upcoming,
        blockchain_hash := generateBlockchainHash sha256
          (electionRecord title body.description startDate endDate user.userId),
        created_by := user.userId, created_at := now }],
      nextElectionId := s.nextElectionId + 1 }
  rcases hic : insertCandidates sha256 now s.nextElectionId (c :: cs) _ with ⟨s2, flag⟩
  rw [hic] at hfail k1 k2 k3 k4 r1 r2
  simp only at hfail k1 k2 k3 k4 r1 r2
  subst hfail
  simp only
  refine ⟨trivial, k1, k4, k2, k3, ?_, r1, r2.symm⟩
  intro heq
  have hlen := congrArg (fun t : Store => t.elections.length) heq
  simp only [k1, List.length_append, List.length_singleton] at hlen
  omega

set_option maxRecDepth 100000 in
/-- C12, witness: the request whose second candidate has a name of 256
characters: election 3 and its candidate Alice (row 5) are kept. -/
theorem createElection_keeps_partial_rows_witness :
    (createElection demoDigest demoSetup 60 demoAdmin demoLongName .absent).2
      = .internalServerError ∧
    (createElection demoDigest demoSetup 60 demoAdmin demoLongName .absent).1 ≠ demoSetup ∧
    (createElection demoDigest demoSetup 60 demoAdmin demoLongName .absent).1.candidates =
      demoSetup.candidates ++
        [candidateRow demoDigest 60 3 5 { name := some "Alice".toList, description := none }] :=
  have h := createElection_keeps_partial_rows demoDigest demoSetup 60 demoAdmin demoLongName
    .absent "Senate 2025".toList 1000 4600
    { name := some "Alice".toList, description := none }
    [{ name := some (List.replicate 256 'x'), description := none }]
    { demoSetup with
      elections := demoSetup.elections ++
        [electionRow demoDigest demoSetup 60 "Senate 2025".toList none 1000 4600 1],
      nextElectionId := 4 } 3
    (by decide) rfl (by decide) (by decide) rfl rfl rfl (by decide) rfl (by decide)
  ⟨h.1, h.2.2.2.2.2.1, h.2.2.2.2.2.2.1⟩

set_option maxRecDepth 100000 in
/-- C12, counterexample: the insertion of the second candidate is refused after
election 3 and its first candidate (row 5) were inserted; the request answers
500 and both rows are in the store afterwards. -/
theorem createElection_leaves_partial_election :
    (createElection demoDigest demoSetup 60 demoAdmin demoLongName .absent).2
      = .internalServerError ∧
    demoSetup.elections.map (·.id) = [1, 2] ∧
    (createElection demoDigest demoSetup 60 demoAdmin demoLongName .absent).1.elections.map
      (·.id) = [1, 2, 3] ∧
    demoSetup.candidates.map (fun c => (c.id, c.election_id)) = [(1, 1), (2, 1), (3, 2), (4, 2)] ∧
    (createElection demoDigest demoSetup 60 demoAdmin demoLongName .absent).1.candidates.map
      (fun c => (c.id, c.election_id)) = [(1, 1), (2, 1), (3, 2), (4, 2), (5, 3)] ∧
    (createElection demoDigest demoSetup 60 demoAdmin demoLongName .absent).1 ≠ demoSetup := by
  decide

/-- The handler of `POST /api/elections` does not read what the ledger call
returned: its result is the same for every oracle, and the hash it returns is
the one it stored, the digest of `electionData`. -/
theorem createElection_ignores_oracle (sha256 : Text → Text) (s : Store) (now : Nat)
    (user : AuthUser) (body : ElectionBody) (oracle other : Oracle) :
    createElection sha256 s now user body oracle = createElection sha256 s now user body other ∧
    ∀ (electionId : Nat) (blockchainHash : Text),
      (createElection sha256 s now user body oracle).2
        = .electionCreated electionId blockchainHash →
      ∃ (title : Text) (startDate endDate : Nat),
        body.title = some title ∧ body.startDate = some startDate ∧
        body.endDate = some endDate ∧
        blockchainHash = generateBlockchainHash sha256
          (electionRecord title body.description startDate endDate user.userId) ∧
        ∃ row ∈ (createElection sha256 s now user body oracle).1.elections,
          row.id = electionId ∧ row.blockchain_hash = blockchainHash := by
  refine ⟨rfl, ?_⟩
  intro electionId blockchainHash
  unfold createElection
  split_ifs
  · intro h; cases h
  · intro h; cases h
  · intro h; cases h
  · split
    · next title sd ed c cs ht hsd hed hcs =>
      split
      · next rejection hrej =>
        intro h
        exfalso
        have hv : ∀ (cands : List CandidateInput) (r : Response), validateCandidates cands = some r →
            r = .candidateNamesInvalid ∨ r = .candidateDescriptionsInvalid := by
          intro cands
          induction cands with
          | nil => intro r hr; cases hr
          | cons x xs ih =>
            intro r hr
            unfold validateCandidates at hr
            split_ifs at hr
            · left; cases hr; rfl
            · right; cases hr; rfl
            · exact ih r hr
        rcases hv _ _ hrej with h1 | h1 <;> rw [h1] at h <;> cases h
      · simp only
        split
        · intro h; cases h
        · next s1 id hins =>
          obtain ⟨hid, hs1⟩ := insertElection_ok hins
          obtain ⟨k1, _, _, _⟩ := insertCandidates_frame sha256 now id (c :: cs) s1
          split
          · intro h; cases h
          · next s2 hic =>
            intro h
            simp only [Response.electionCreated.injEq] at h
            obtain ⟨rfl, rfl⟩ := h
            refine ⟨title, sd, ed, ht, hsd, hed, rfl, ?_⟩
            rw [hic] at k1
            simp only at k1
            simp only [k1, hs1, List.mem_append, List.mem_singleton]
            exact ⟨_, Or.inr rfl, hid.symm, rfl⟩
    · intro h; cases h

/-- C14: at the request of the admin for the Mayor election, while the ledger
accepts the election and returns the transaction hash `0x5d7f9a1c`, the code
returns and stores for election 3 the local digest of `electionData`, not that
identifier; the vote handler, given the same ledger answer, stores the
identifier as the vote's `blockchain_hash`. -/
theorem createElection_drops_transaction_hash :
    demoTx.txHash = some "0x5d7f9a1c".toList ∧
    (createElection demoDigest demoSetup 60 demoAdmin demoMayor demoTx).2 =
      .electionCreated 3
        (generateBlockchainHash demoDigest
          (electionRecord "Mayor 2025".toList none 1000 4600 1)) ∧
    (createElection demoDigest demoSetup 60 demoAdmin demoMayor demoTx).2 ≠
      .electionCreated 3 "0x5d7f9a1c".toList ∧
    (∀ row ∈ (createElection demoDigest demoSetup 60 demoAdmin demoMayor demoTx).1.elections,
      row.blockchain_hash ≠ "0x5d7f9a1c".toList) ∧
    (∃ row ∈ (castVote demoDigest demoVoted 1002 demoV2 1 2 demoTx 1002000).1.votes,
      row.blockchain_hash = "0x5d7f9a1c".toList) := by
  decide

/-! ## Claims on deleting an election and on the voter count -/

/-- C16: a deleteElection request by an admin on an election that has at least
one vote is answered with the business-rule error 'Cannot delete election with
existing votes' (HTTP 400) and leaves the whole store, every row of every
table, as it was. -/
theorem deleteElection_with_votes_refused (s : Store) (user : AuthUser) (electionId : Nat)
    (hadmin : user.role = .admin)
    (hvotes : ∃ v ∈ s.votes, v.election_id = electionId) :
    (deleteElection s user electionId).2 = .cannotDeleteElection ∧
    (deleteElection s user electionId).2.outcome = .businessRule ∧
    (deleteElection s user electionId).1 = s := by
  have hpos : (s.votes.filter fun v => v.election_id = electionId).length > 0 := by
    obtain ⟨v, hv, hve⟩ := hvotes
    apply List.length_pos_of_mem (a := v)
    simp only [List.mem_filter, decide_eq_true_eq]
    exact ⟨hv, hve⟩
  unfold deleteElection
  simp only [hadmin, ne_eq, not_true_eq_false, if_false, hpos, if_true]
  exact ⟨trivial, rfl, trivial⟩

/-- C16, witness: the admin asks to delete election 1 after V1 has voted in it. -/
theorem deleteElection_with_votes_refused_witness :
    (∃ v ∈ demoVoted.votes, v.election_id = 1) ∧
    (deleteElection demoVoted demoAdmin 1).2 = .cannotDeleteElection ∧
    (deleteElection demoVoted demoAdmin 1).1 = demoVoted :=
  have h := deleteElection_with_votes_refused demoVoted demoAdmin 1 (by decide) (by decide)
  ⟨by decide, h.1, h.2.2⟩

/-- C18: in every reachable store and for every election id, the reported
`unique_voters` equals the reported `total_votes`. -/
theorem unique_voters_eq_total_votes (sha256 : Text → Text) (s : Store)
    (h : Reachable sha256 s) (electionId : Nat) :
    unique_voters s electionId = total_votes s electionId := by
  have hpw := (reachable_consistent sha256 h).uniqueVote
  have hsub : (s.votes.filter fun v => v.election_id = electionId).Pairwise
      fun a b => ¬ (a.election_id = b.election_id ∧ a.voter_id = b.voter_id) :=
    hpw.sublist (List.filter_sublist _)
  have hall : ∀ v ∈ (s.votes.filter fun v => v.election_id = electionId),
      v.election_id = electionId := by
    intro v hv
    simpa using (List.mem_filter.1 hv).2
  have hnd : ((s.votes.filter fun v => v.election_id = electionId).map (·.voter_id)).Nodup := by
    rw [List.Nodup, List.pairwise_map]
    refine hsub.imp_of_mem ?_
    intro a b ha hb hab heq
    exact hab ⟨(hall a ha).trans (hall b hb).symm, heq⟩
  unfold unique_voters total_votes
  rw [hnd.dedup, List.length_map]

/-- C18, witness: election 1 after both sample votes: two votes, two voters. -/
theorem unique_voters_eq_total_votes_witness :
    Reachable demoDigest demoCross ∧ unique_voters demoCross 1 = 2 ∧
    unique_voters demoCross 1 = total_votes demoCross 1 :=
  ⟨reachable_run demoDigest demoCrossRequests Reachable.init, by decide,
   unique_voters_eq_total_votes demoDigest demoCross
     (reachable_run demoDigest demoCrossRequests Reachable.init) 1⟩

/-! ## The insert of a vote and the oracle -/

theorem castVoteChecks_pass {s : Store} {now : Nat} {user : AuthUser} {e c : Nat}
    (h : (castVoteChecks s now user e c).2 = none) :
    user.role = .voter ∧ e ≠ 0 ∧ c ≠ 0 ∧
    (castVoteChecks s now user e c).1 = updateStatusWhere s now e ∧
    (∃ el ∈ s.elections, el.id = e ∧ el.start_date ≤ now ∧ now < el.end_date) ∧
    ¬ ∃ v ∈ s.votes, v.election_id = e ∧ v.voter_id = user.userId := by
  by_cases hrole : user.role = .voter
  · by_cases hid : e = 0 ∨ c = 0
    · exfalso
      unfold castVoteChecks at h
      simp [hrole, hid] at h
    · have he : e ≠ 0 := fun h0 => hid (Or.inl h0)
      have hc : c ≠ 0 := fun h0 => hid (Or.inr h0)
      rw [castVoteChecks_eq s now user e c hrole he hc] at h ⊢
      refine ⟨hrole, he, hc, rfl, ?_⟩
      simp only at h
      cases hfl : s.elections.filter (fun x => x.id = e) with
      | nil => rw [hfl] at h; cases h
      | cons el rest =>
        rw [hfl] at h
        simp only at h
        have hmem : el ∈ s.elections.filter (fun x => x.id = e) := by
          rw [hfl]; exact List.mem_cons_self _ _
        rw [List.mem_filter] at hmem
        split_ifs at h with hwin hex
        exact ⟨⟨el, hmem.1, by simpa using hmem.2, hwin.1, hwin.2⟩, hex⟩
  · exfalso
    unfold castVoteChecks at h
    simp [hrole] at h

theorem voteBlockchainHash_cases (sha256 : Text → Text) (oracle : Oracle)
    (e c v ts : Nat) :
    (∀ h, oracle = .tx h → h ≠ [] → voteBlockchainHash sha256 oracle e c v ts = h) ∧
    (oracle = .absent ∨ oracle = .failed ∨ oracle = .tx [] →
      voteBlockchainHash sha256 oracle e c v ts =
        generateBlockchainHash sha256 (voteRecord e c v ts)) := by
  refine ⟨?_, ?_⟩
  · rintro h rfl hne
    simp [voteBlockchainHash, Oracle.txHash, hne]
  · rintro (rfl | rfl | rfl) <;> simp [voteBlockchainHash, Oracle.txHash, voteRecord]

theorem demoDigest_length (t : Text) : (demoDigest t).length = 64 := by
  simp only [demoDigest, List.length_take, List.length_append, List.length_replicate]
  omega

/-- C13, as the code has it: a castVote request that passes the handler's
checks and names an existing candidate row, by a voter whose user row exists,
is persisted and succeeds whatever the oracle does, provided the oracle's
identifier, if any, fits `blockchain_hash VARCHAR(66)`.  The stored integrity
hash is the oracle's transaction identifier when the oracle returned a
non-empty one, and the local hash over {electionId, candidateId, voterId,
timestamp} when no oracle is configured, the call failed, or the identifier is
empty; the timestamp is the one `voteHash` is computed from.  The digest has
64 characters, and the four numbers are below 2^53, so that the record is
written as JavaScript writes it. -/
theorem castVote_persists_whatever_oracle (sha256 : Text → Text) (s : Store) (now : Nat)
    (user : AuthUser) (electionId candidateId : Nat) (oracle : Oracle) (timestamp : Nat)
    (hdigest : ∀ t, (sha256 t).length = 64)
    (hpass : (castVoteChecks s now user electionId candidateId).2 = none)
    (hcand : ∃ cand ∈ s.candidates, cand.id = candidateId)
    (hvoter : ∃ u ∈ s.users, u.id = user.userId)
    (hwidth : ∀ h, oracle = .tx h → h.length ≤ 66)
    (hsafe : electionId < 2 ^ 53 ∧ candidateId < 2 ^ 53 ∧ user.userId < 2 ^ 53 ∧
      timestamp < 2 ^ 53) :
    PlainRecord (voteRecord electionId candidateId user.userId timestamp) ∧
    ∃ row : Vote,
      (castVote sha256 s now user electionId candidateId oracle timestamp).1.votes
        = s.votes ++ [row] ∧
      (castVote sha256 s now user electionId candidateId oracle timestamp).2
        = .voteCast row.vote_hash row.blockchain_hash oracle.txHash ∧
      row.election_id = electionId ∧ row.candidate_id = candidateId ∧
      row.voter_id = user.userId ∧
      row.vote_hash = generateVoteHash sha256 user.userId candidateId timestamp ∧
      (∀ h, oracle = .tx h → h ≠ [] → row.blockchain_hash = h) ∧
      (oracle = .absent ∨ oracle = .failed ∨ oracle = .tx [] →
        row.blockchain_hash = generateBlockchainHash sha256
          (voteRecord electionId candidateId user.userId timestamp)) := by
  refine ⟨?_, ?_⟩
  · intro m hm
    simp only [voteRecord, List.mem_cons, List.mem_singleton, List.not_mem_nil,
      or_false] at hm
    rcases hm with rfl | rfl | rfl | rfl
    · exact hsafe.1
    · exact hsafe.2.1
    · exact hsafe.2.2.1
    · exact hsafe.2.2.2
  obtain ⟨hrole, he, hc, hfst, ⟨el, hel, hid, _⟩, hnodup⟩ := castVoteChecks_pass hpass
  have hck : castVoteChecks s now user electionId candidateId =
      (updateStatusWhere s now electionId, none) := by
    rw [← hfst, ← hpass]
  have hvh : ¬ (generateVoteHash sha256 user.userId candidateId timestamp).length > 64 := by
    unfold generateVoteHash
    rw [hdigest]
    omega
  have hbh : ¬ (voteBlockchainHash sha256 oracle electionId candidateId user.userId
      timestamp).length > 66 := by
    have hloc : (generateBlockchainHash sha256
        (voteRecord electionId candidateId user.userId timestamp)).length = 64 := by
      unfold generateBlockchainHash
      rw [hdigest]
    obtain ⟨hx1, hx2⟩ := voteBlockchainHash_cases sha256 oracle electionId candidateId
      user.userId timestamp
    cases horacle : oracle with
    | absent => rw [← horacle, hx2 (Or.inl horacle), hloc]; omega
    | failed => rw [← horacle, hx2 (Or.inr (Or.inl horacle)), hloc]; omega
    | tx h =>
      by_cases hempty : h = []
      · rw [← horacle, hx2 (Or.inr (Or.inr (by rw [horacle, hempty]))), hloc]; omega
      · rw [← horacle, hx1 h horacle hempty]
        have := hwidth h horacle
        omega
  have hins : insertVote (updateStatusWhere s now electionId) now electionId
      candidateId user.userId
      (voteBlockchainHash sha256 oracle electionId candidateId user.userId timestamp)
      (generateVoteHash sha256 user.userId candidateId timestamp) =
      .ok { updateStatusWhere s now electionId with
        votes := s.votes ++ [{
          id := s.nextVoteId, election_id := electionId, candidate_id := candidateId,
          voter_id := user.userId,
          blockchain_hash :=
            voteBlockchainHash sha256 oracle electionId candidateId user.userId timestamp,
          vote_hash := generateVoteHash sha256 user.userId candidateId timestamp,
          created_at := now }],
        nextVoteId := s.nextVoteId + 1 } := by
    unfold insertVote
    have h1 : ¬ ∃ v ∈ (updateStatusWhere s now electionId).votes,
        v.election_id = electionId ∧ v.voter_id = user.userId := hnodup
    have h2 : ∃ x ∈ (updateStatusWhere s now electionId).elections, x.id = electionId := by
      have : electionId ∈ (updateStatusWhere s now electionId).electionIds := by
        rw [updateStatusWhere_electionIds]
        exact List.mem_map.2 ⟨el, hel, hid⟩
      simpa [Store.electionIds] using this
    have h3 : ∃ x ∈ (updateStatusWhere s now electionId).candidates, x.id = candidateId := hcand
    have h4 : ∃ x ∈ (updateStatusWhere s now electionId).users, x.id = user.userId := hvoter
    rw [if_neg h1, if_neg (not_not.2 h2), if_neg (not_not.2 h3), if_neg (not_not.2 h4),
      if_neg hbh, if_neg hvh]
    rfl
  obtain ⟨hx1, hx2⟩ := voteBlockchainHash_cases sha256 oracle electionId candidateId
    user.userId timestamp
  refine ⟨{ id := s.nextVoteId, election_id := electionId, candidate_id := candidateId,
            voter_id := user.userId,
            blockchain_hash := voteBlockchainHash sha256 oracle electionId candidateId
              user.userId timestamp,
            vote_hash := generateVoteHash sha256 user.userId candidateId timestamp,
            created_at := now }, ?_, ?_, rfl, rfl, rfl, rfl, hx1, hx2⟩
  · unfold castVote
    rw [hck]
    simp only [castVoteInsert, hins]
  · unfold castVote
    rw [hck]
    simp only [castVoteInsert, hins]

/-- C13, witness: V2 votes for Bob while the ledger returns `0x5d7f9a1c`, and
while no ledger is configured. -/
theorem castVote_persists_whatever_oracle_witness :
    (∃ row : Vote,
      (castVote demoDigest demoVoted 1002 demoV2 1 2 demoTx 1002000).1.votes
        = demoVoted.votes ++ [row] ∧ row.blockchain_hash = "0x5d7f9a1c".toList) ∧
    (∃ row : Vote,
      (castVote demoDigest demoVoted 1002 demoV2 1 2 .absent 1002000).1.votes
        = demoVoted.votes ++ [row] ∧
      row.blockchain_hash = generateBlockchainHash demoDigest (voteRecord 1 2 3 1002000)) :=
  have h1 := castVote_persists_whatever_oracle demoDigest demoVoted 1002 demoV2 1 2 demoTx
    1002000 demoDigest_length (by decide) (by decide) (by decide)
    (fun h hh => by cases hh; decide) (by decide)
  have h2 := castVote_persists_whatever_oracle demoDigest demoVoted 1002 demoV2 1 2 .absent
    1002000 demoDigest_length (by decide) (by decide) (by decide)
    (fun h hh => by cases hh) (by decide)
  ⟨h1.2.elim fun row hr => ⟨row, hr.1, hr.2.2.2.2.2.2.1 _ rfl (by decide)⟩,
   h2.2.elim fun row hr => ⟨row, hr.1, hr.2.2.2.2.2.2.2 (Or.inl rfl)⟩⟩

/-- C13, counterexample: V2's request for election 1 passes every check of the
handler and the ledger returns a transaction hash, but candidate 77 is no row:
the insert is refused, the request fails with 500 and no vote is persisted.
The same happens for candidate 2 when the ledger's identifier has 67
characters.  And a ledger answer with an empty hash is replaced by the local
hash. -/
theorem castVote_not_persisted_unknown_candidate :
    (castVoteChecks demoVoted 1002 demoV2 1 77).2 = none ∧
    (castVote demoDigest demoVoted 1002 demoV2 1 77 demoTx 1002000).2 = .internalServerError ∧
    (castVote demoDigest demoVoted 1002 demoV2 1 77 demoTx 1002000).1.votes = demoVoted.votes ∧
    (castVoteChecks demoVoted 1002 demoV2 1 2).2 = none ∧
    (castVote demoDigest demoVoted 1002 demoV2 1 2 demoLongTx 1002000).2
      = .internalServerError ∧
    (castVote demoDigest demoVoted 1002 demoV2 1 2 demoLongTx 1002000).1.votes
      = demoVoted.votes ∧
    (castVote demoDigest demoVoted 1002 demoV2 1 2 (.tx []) 1002000).2 =
      .voteCast (generateVoteHash demoDigest 3 2 1002000)
        (generateBlockchainHash demoDigest (voteRecord 1 2 3 1002000)) (some []) := by
  decide

/-! ## What a request does to the votes and the candidates -/

theorem register_frame (s : Store) (now : Nat) (name email password role : Text) :
    (register s now name email password role).1.votes = s.votes ∧
    (register s now name email password role).1.candidates = s.candidates := by
  unfold register
  repeat' split
  all_goals exact ⟨rfl, rfl⟩

theorem createElection_frame (sha256 : Text → Text) (s : Store) (now : Nat) (user : AuthUser)
    (body : ElectionBody) (oracle : Oracle) :
    (createElection sha256 s now user body oracle).1.votes = s.votes ∧
    s.candidates <+: (createElection sha256 s now user body oracle).1.candidates := by
  unfold createElection
  split_ifs
  · exact ⟨rfl, List.prefix_refl _⟩
  · exact ⟨rfl, List.prefix_refl _⟩
  · exact ⟨rfl, List.prefix_refl _⟩
  · split
    · next title sd ed c cs _ _ _ _ =>
      split
      · exact ⟨rfl, List.prefix_refl _⟩
      · simp only
        split
        · exact ⟨rfl, List.prefix_refl _⟩
        · next s1 id h =>
          obtain ⟨_, hs1⟩ := insertElection_ok h
          obtain ⟨_, _, k3, k4⟩ := insertCandidates_frame sha256 now id (c :: cs) s1
          have hv : s1.votes = s.votes := by rw [hs1]
          have hc : s1.candidates = s.candidates := by rw [hs1]
          rw [hv] at k3
          rw [hc] at k4
          split
          · next s2 h5 => rw [h5] at k3 k4; exact ⟨k3, k4⟩
          · next s2 h5 => rw [h5] at k3 k4; exact ⟨k3, k4⟩
    · exact ⟨rfl, List.prefix_refl _⟩

theorem castVoteInsert_frame (sha256 : Text → Text) (s : Store) (now : Nat) (user : AuthUser)
    (e c : Nat) (oracle : Oracle) (ts : Nat) :
    s.votes <+: (castVoteInsert sha256 s now user e c oracle ts).1.votes ∧
    (castVoteInsert sha256 s now user e c oracle ts).1.candidates = s.candidates := by
  unfold castVoteInsert
  simp only
  split
  · exact ⟨List.prefix_refl _, rfl⟩
  · next s2 h =>
    obtain ⟨_, _, _, _, rfl⟩ := insertVote_ok h
    exact ⟨List.prefix_append _ _, rfl⟩

theorem castVote_frame (sha256 : Text → Text) (s : Store) (now : Nat) (user : AuthUser)
    (e c : Nat) (oracle : Oracle) (ts : Nat) :
    s.votes <+: (castVote sha256 s now user e c oracle ts).1.votes ∧
    (castVote sha256 s now user e c oracle ts).1.candidates = s.candidates := by
  have h1 : (castVoteChecks s now user e c).1.votes = s.votes ∧
      (castVoteChecks s now user e c).1.candidates = s.candidates := by
    rcases castVoteChecks_fst s now user e c with h | h <;> rw [h] <;> exact ⟨rfl, rfl⟩
  unfold castVote
  split
  · next s1 r h =>
    rw [h] at h1
    simp only at h1 ⊢
    rw [h1.1, h1.2]
    exact ⟨List.prefix_refl _, rfl⟩
  · next s1 h =>
    rw [h] at h1
    simp only at h1
    have := castVoteInsert_frame sha256 s1 now user e c oracle ts
    rw [h1.1, h1.2] at this
    exact this

theorem deleteVoter_frame (s : Store) (user : AuthUser) (voterId : Nat) :
    (deleteVoter s user voterId).1.votes = s.votes ∧
    (deleteVoter s user voterId).1.candidates = s.candidates := by
  unfold deleteVoter
  simp only
  split_ifs <;> exact ⟨rfl, rfl⟩

/-- A vote that names a candidate of its own election, and that candidate. -/
theorem deleteElection_keeps_own_vote {s : Store} (hs : s.Consistent) (user : AuthUser)
    (e : Nat) (v : Vote) (cand : Candidate) (hv : v ∈ s.votes) (hc : cand ∈ s.candidates)
    (hid : cand.id = v.candidate_id) (hel : cand.election_id = v.election_id) :
    v ∈ (deleteElection s user e).1.votes ∧ cand ∈ (deleteElection s user e).1.candidates := by
  unfold deleteElection
  simp only
  split_ifs with h1 h2 h3
  · exact ⟨hv, hc⟩
  · exact ⟨hv, hc⟩
  · exact ⟨hv, hc⟩
  · have hne : v.election_id ≠ e := by
      intro heq
      apply h2
      apply List.length_pos_of_mem (a := v)
      simp only [List.mem_filter, decide_eq_true_eq]
      exact ⟨hv, heq⟩
    have hlook := candidate_lookup hs hc
    constructor
    · simp only [deleteElectionRow, List.mem_filter, decide_eq_true_eq]
      refine ⟨hv, hne, ?_⟩
      rintro ⟨c2, hc2, hc2e, hc2id⟩
      have hmem : c2 ∈ s.candidates.filter (fun x => x.id = cand.id) := by
        simp only [List.mem_filter, decide_eq_true_eq]
        exact ⟨hc2, hc2id.trans hid.symm⟩
      rw [hlook, List.mem_singleton] at hmem
      subst hmem
      exact hne (hel.symm.trans hc2e)
    · simp only [deleteElectionRow, List.mem_filter, decide_eq_true_eq]
      refine ⟨hc, ?_⟩
      simpa using fun heq : cand.election_id = e => hne (hel.symm.trans heq)

theorem step_keeps_own_vote (sha256 : Text → Text) {s : Store} (hs : s.Consistent)
    (now : Nat) (r : Request) (v : Vote) (cand : Candidate) (hv : v ∈ s.votes)
    (hc : cand ∈ s.candidates) (hid : cand.id = v.candidate_id)
    (hel : cand.election_id = v.election_id) :
    v ∈ (step sha256 s now r).1.votes ∧ cand ∈ (step sha256 s now r).1.candidates := by
  cases r with
  | register name email password role =>
    obtain ⟨h1, h2⟩ := register_frame s now name email password role
    exact ⟨by rw [step, h1]; exact hv, by rw [step, h2]; exact hc⟩
  | createElection user body oracle =>
    obtain ⟨h1, h2⟩ := createElection_frame sha256 s now user body oracle
    exact ⟨by rw [step, h1]; exact hv, h2.subset hc⟩
  | castVote user e c oracle ts =>
    obtain ⟨h1, h2⟩ := castVote_frame sha256 s now user e c oracle ts
    exact ⟨h1.subset hv, by rw [step, h2]; exact hc⟩
  | getElections => exact ⟨hv, hc⟩
  | updateStatus => exact ⟨hv, hc⟩
  | deleteElection user e => exact deleteElection_keeps_own_vote hs user e v cand hv hc hid hel
  | deleteVoter user voterId =>
    obtain ⟨h1, h2⟩ := deleteVoter_frame s user voterId
    exact ⟨by rw [step, h1]; exact hv, by rw [step, h2]; exact hc⟩

/-- C17, as the code has it: a recorded vote that names a candidate of its own
election is never removed or altered: present in a reachable store, it is
present, with every field as it was, in the store after any further sequence
of requests. -/
theorem vote_of_own_candidate_persists (sha256 : Text → Text) (s : Store)
    (h : Reachable sha256 s) (v : Vote) (hv : v ∈ s.votes)
    (hown : ∃ cand ∈ s.candidates,
      cand.id = v.candidate_id ∧ cand.election_id = v.election_id)
    (later : List (Nat × Request)) :
    v ∈ (run sha256 s later).votes := by
  obtain ⟨cand, hc, hid, hel⟩ := hown
  have key : ∀ (rs : List (Nat × Request)) (t : Store), t.Consistent → v ∈ t.votes →
      cand ∈ t.candidates → v ∈ (run sha256 t rs).votes := by
    intro rs
    induction rs with
    | nil => intro t _ hvt _; exact hvt
    | cons r rs ih =>
      intro t ht hvt hct
      obtain ⟨h1, h2⟩ := step_keeps_own_vote sha256 ht r.1 r.2 v cand hvt hct hid hel
      exact ih _ (step_consistent sha256 ht r.1 r.2) h1 h2
  exact key later s (reachable_consistent sha256 h) hv hc

/-- C17, witness: V1's vote for Alice survives the deletion of election 2, a
later vote, and the refused deletions of election 1 and of V1. -/
theorem vote_of_own_candidate_persists_witness :
    demoFirstVote ∈ demoVoted.votes ∧
    demoFirstVote ∈ (run demoDigest demoVoted demoLaterRequests).votes :=
  ⟨by decide,
   vote_of_own_candidate_persists demoDigest demoVoted
    (reachable_run demoDigest demoVoteRequests Reachable.init) demoFirstVote
    (by decide) (by decide) demoLaterRequests⟩

/-- C17, counterexample: V2's vote in election 1 names candidate 3 of election
2.  Election 2 has no vote of its own, so the admin may delete it; its
candidates go with it, and V2's vote with them. -/
theorem vote_removed_with_foreign_candidate :
    demoCross.votes.map (fun v => (v.id, v.election_id, v.candidate_id, v.voter_id))
      = [(1, 1, 1, 2), (2, 1, 3, 3)] ∧
    (deleteElection demoCross demoAdmin 2).2 = .electionDeleted ∧
    (run demoDigest demoCross [(2000, .deleteElection demoAdmin 2)]).votes.map
      (fun v => (v.id, v.election_id, v.candidate_id, v.voter_id)) = [(1, 1, 1, 2)] ∧
    (∃ v ∈ demoCross.votes,
      v ∉ (run demoDigest demoCross [(2000, .deleteElection demoAdmin 2)]).votes) := by
  decide

/-! ## Claim on the local hash -/

theorem plain_ofOptText (o : Option Text) : (Json.ofOptText o).Plain := by
  cases o <;> exact trivial

theorem plain_voteRecord (e c v t : Nat) (h : ∀ n ∈ [e, c, v, t], n < 2 ^ 53) :
    PlainRecord (voteRecord e c v t) := by
  intro m hm
  simp only [voteRecord, List.mem_cons, List.mem_singleton, List.not_mem_nil, or_false] at hm
  rcases hm with rfl | rfl | rfl | rfl
  · exact h e (by simp)
  · exact h c (by simp)
  · exact h v (by simp)
  · exact h t (by simp)

theorem plain_electionRecord (title : Text) (description : Option Text) (a b c : Nat)
    (h : ∀ n ∈ [a, b, c], n < 2 ^ 53) :
    PlainRecord (electionRecord title description a b c) := by
  intro m hm
  simp only [electionRecord, List.mem_cons, List.mem_singleton, List.not_mem_nil,
    or_false] at hm
  rcases hm with rfl | rfl | rfl | rfl | rfl
  · exact trivial
  · exact plain_ofOptText description
  · exact h a (by simp)
  · exact h b (by simp)
  · exact h c (by simp)

theorem plain_candidateRecord (name : Option Text) (e : Nat) (h : e < 2 ^ 53) :
    PlainRecord (candidateRecord name e) := by
  intro m hm
  simp only [candidateRecord, List.mem_cons, List.mem_singleton, List.not_mem_nil,
    or_false] at hm
  rcases hm with rfl | rfl
  · exact plain_ofOptText name
  · exact h

/-- C15, as the code has it: the local hash is a function of the record alone:
equal records give equal hashes.  For records whose field values are strings,
`null` or non-negative integers below 2^53, the text that is digested
determines the record; so, under an injective digest, two such records that
differ give different hashes, and in particular two vote records, two election
records or two candidate records that differ in any field do. -/
theorem generateBlockchainHash_determined_by_fields (sha256 : Text → Text) :
    (∀ d1 d2 : List (Text × Json), d1 = d2 →
      generateBlockchainHash sha256 d1 = generateBlockchainHash sha256 d2) ∧
    (∀ d1 d2 : List (Text × Json), PlainRecord d1 → PlainRecord d2 →
      stringify d1 = stringify d2 → d1 = d2) ∧
    (Function.Injective sha256 →
      (∀ d1 d2 : List (Text × Json), PlainRecord d1 → PlainRecord d2 → d1 ≠ d2 →
        generateBlockchainHash sha256 d1 ≠ generateBlockchainHash sha256 d2) ∧
      (∀ e1 c1 v1 t1 e2 c2 v2 t2 : Nat,
        (∀ n ∈ [e1, c1, v1, t1], n < 2 ^ 53) → (∀ n ∈ [e2, c2, v2, t2], n < 2 ^ 53) →
        (e1, c1, v1, t1) ≠ (e2, c2, v2, t2) →
        generateBlockchainHash sha256 (voteRecord e1 c1 v1 t1) ≠
          generateBlockchainHash sha256 (voteRecord e2 c2 v2 t2)) ∧
      (∀ (title1 title2 : Text) (desc1 desc2 : Option Text) (s1 n1 b1 s2 n2 b2 : Nat),
        (∀ n ∈ [s1, n1, b1], n < 2 ^ 53) → (∀ n ∈ [s2, n2, b2], n < 2 ^ 53) →
        (title1, desc1, s1, n1, b1) ≠ (title2, desc2, s2, n2, b2) →
        generateBlockchainHash sha256 (electionRecord title1 desc1 s1 n1 b1) ≠
          generateBlockchainHash sha256 (electionRecord title2 desc2 s2 n2 b2)) ∧
      (∀ (name1 name2 : Option Text) (e1 e2 : Nat), e1 < 2 ^ 53 → e2 < 2 ^ 53 →
        (name1, e1) ≠ (name2, e2) →
        generateBlockchainHash sha256 (candidateRecord name1 e1) ≠
          generateBlockchainHash sha256 (candidateRecord name2 e2))) := by
  refine ⟨fun d1 d2 h => by rw [h], stringify_injective_plain, fun hinj => ?_⟩
  have hopt : ∀ a b : Option Text, Json.ofOptText a = Json.ofOptText b → a = b := by
    intro a b h
    cases a with
    | none =>
      cases b with
      | none => rfl
      | some y => simp only [Json.ofOptText] at h; cases h
    | some x =>
      cases b with
      | none => simp only [Json.ofOptText] at h; cases h
      | some y =>
        simp only [Json.ofOptText, Json.str.injEq] at h
        rw [h]
  have key : ∀ d1 d2 : List (Text × Json), PlainRecord d1 → PlainRecord d2 →
      generateBlockchainHash sha256 d1 = generateBlockchainHash sha256 d2 → d1 = d2 :=
    fun d1 d2 p1 p2 h => stringify_injective_plain d1 d2 p1 p2 (hinj h)
  refine ⟨fun d1 d2 p1 p2 hne h => hne (key d1 d2 p1 p2 h), ?_, ?_, ?_⟩
  · intro e1 c1 v1 t1 e2 c2 v2 t2 hb1 hb2 hne h
    apply hne
    have := key _ _ (plain_voteRecord _ _ _ _ hb1) (plain_voteRecord _ _ _ _ hb2) h
    simp only [voteRecord, List.cons.injEq, Prod.mk.injEq, true_and, Json.num.injEq,
      and_true] at this
    obtain ⟨rfl, rfl, rfl, rfl⟩ := this
    rfl
  · intro title1 title2 desc1 desc2 s1 n1 b1 s2 n2 b2 hb1 hb2 hne h
    apply hne
    have := key _ _ (plain_electionRecord _ _ _ _ _ hb1) (plain_electionRecord _ _ _ _ _ hb2) h
    simp only [electionRecord, List.cons.injEq, Prod.mk.injEq, true_and, Json.num.injEq,
      Json.str.injEq, and_true] at this
    obtain ⟨rfl, hd, rfl, rfl, rfl⟩ := this
    rw [hopt _ _ hd]
  · intro name1 name2 e1 e2 hb1 hb2 hne h
    apply hne
    have := key _ _ (plain_candidateRecord _ _ hb1) (plain_candidateRecord _ _ hb2) h
    simp only [candidateRecord, List.cons.injEq, Prod.mk.injEq, true_and, Json.num.injEq,
      and_true] at this
    obtain ⟨hn, rfl⟩ := this
    rw [hopt _ _ hn]

/-- C15, witness: under the identity as digest, the vote records of V1 for
Alice and for Bob at the same instant have different hashes. -/
theorem generateBlockchainHash_determined_by_fields_witness :
    generateBlockchainHash (fun t => t) (voteRecord 1 1 2 1001000) ≠
      generateBlockchainHash (fun t => t) (voteRecord 1 2 2 1001000) :=
  ((generateBlockchainHash_determined_by_fields (fun t => t)).2.2
    (fun _ _ h => h)).2.1 1 1 2 1001000 1 2 2 1001000 (by decide) (by decide) (by decide)

/-- C15, counterexample: the vote records with `candidateId` `Infinity` and
`-Infinity` differ in that field, yet `JSON.stringify` writes `null` for both:
the digested texts are equal, and so are the hashes, even under the identity
as digest. -/
theorem generateBlockchainHash_collides_on_nonfinite :
    demoInfiniteVote ≠ demoMinusInfiniteVote ∧
    stringify demoInfiniteVote = stringify demoMinusInfiniteVote ∧
    Function.Injective (fun t : Text => t) ∧
    generateBlockchainHash (fun t => t) demoInfiniteVote =
      generateBlockchainHash (fun t => t) demoMinusInfiniteVote :=
  ⟨by decide, rfl, fun _ _ h => h, rfl⟩

end VoteSecure
